import Mathlib

/-
Verification development for the isotope Figma variables import/export plugin
(`src/code.ts`, second plugin revision: the DTCG-aware engine).

The TypeScript source is shallowly embedded: JSON/JavaScript values are the
mutual inductive family `JNode`/`JFields`/`JElems`, the host (Figma) variable
store is the explicit `Host` state, and the three-pass import (`handleImport`)
together with the export serializers are translated into pure state-passing
Lean functions.  JavaScript numbers are modelled as rationals (`ℚ`); `NaN`
outcomes are modelled with `Option`; JavaScript exceptions are modelled with
`Except`.
-/

set_option maxHeartbeats 2000000

namespace Isotope

/-- A primitive JavaScript value as it occurs in token documents and host
variable stores.  `aliasV id` models the host `VariableAlias` object
(`{type: "VARIABLE_ALIAS", id}`) returned by `figma.variables.createVariableAlias`. -/
inductive JSValue where
  | str (s : String)
  | num (q : ℚ)
  | jbool (b : Bool)
  | jnull
  | undef
  | aliasV (id : Nat)
  deriving DecidableEq, Repr

mutual

/-- A JavaScript value tree: a primitive, an object (ordered fields), or an array. -/
inductive JNode where
  | prim (v : JSValue)
  | obj (fields : JFields)
  | arr (elems : JElems)

/-- The ordered fields of a JavaScript object. -/
inductive JFields where
  | nil
  | fcons (k : String) (v : JNode) (rest : JFields)

/-- The elements of a JavaScript array. -/
inductive JElems where
  | enil
  | econs (v : JNode) (rest : JElems)

end

mutual

/-- Decidable equality for `JNode` (mutual with its field and element lists). -/
def JNode.decEq : (a b : JNode) → Decidable (a = b)
  | .prim v, .prim w =>
    if h : v = w then .isTrue (by rw [h]) else .isFalse (by simp [h])
  | .obj f, .obj g =>
    match JFields.decEq f g with
    | .isTrue h => .isTrue (by rw [h])
    | .isFalse h => .isFalse (by simp [h])
  | .arr e, .arr f2 =>
    match JElems.decEq e f2 with
    | .isTrue h => .isTrue (by rw [h])
    | .isFalse h => .isFalse (by simp [h])
  | .prim _, .obj _ => .isFalse (fun h => JNode.noConfusion h)
  | .prim _, .arr _ => .isFalse (fun h => JNode.noConfusion h)
  | .obj _, .prim _ => .isFalse (fun h => JNode.noConfusion h)
  | .obj _, .arr _ => .isFalse (fun h => JNode.noConfusion h)
  | .arr _, .prim _ => .isFalse (fun h => JNode.noConfusion h)
  | .arr _, .obj _ => .isFalse (fun h => JNode.noConfusion h)

/-- Decidable equality for object fields. -/
def JFields.decEq : (a b : JFields) → Decidable (a = b)
  | .nil, .nil => .isTrue rfl
  | .nil, .fcons _ _ _ => .isFalse (fun h => JFields.noConfusion h)
  | .fcons _ _ _, .nil => .isFalse (fun h => JFields.noConfusion h)
  | .fcons k v r, .fcons k2 v2 r2 =>
    if h1 : k = k2 then
      match JNode.decEq v v2, JFields.decEq r r2 with
      | .isTrue h2, .isTrue h3 => .isTrue (by rw [h1, h2, h3])
      | .isFalse h2, _ => .isFalse (by simp [h2])
      | _, .isFalse h3 => .isFalse (by simp [h3])
    else .isFalse (by simp [h1])

/-- Decidable equality for array elements. -/
def JElems.decEq : (a b : JElems) → Decidable (a = b)
  | .enil, .enil => .isTrue rfl
  | .enil, .econs _ _ => .isFalse (fun h => JElems.noConfusion h)
  | .econs _ _, .enil => .isFalse (fun h => JElems.noConfusion h)
  | .econs v r, .econs v2 r2 =>
    match JNode.decEq v v2, JElems.decEq r r2 with
    | .isTrue h1, .isTrue h2 => .isTrue (by rw [h1, h2])
    | .isFalse h1, _ => .isFalse (by simp [h1])
    | _, .isFalse h2 => .isFalse (by simp [h2])

end

instance : DecidableEq JNode := JNode.decEq
instance : DecidableEq JFields := JFields.decEq
instance : DecidableEq JElems := JElems.decEq

/-- Build object fields from a list (construction convenience only). -/
def JFields.ofList : List (String × JNode) → JFields
  | [] => .nil
  | (k, v) :: rest => .fcons k v (JFields.ofList rest)

/-- Build array elements from a list (construction convenience only). -/
def JElems.ofList : List JNode → JElems
  | [] => .enil
  | v :: rest => .econs v (JElems.ofList rest)

/-- Array elements as a list. -/
def JElems.toList : JElems → List JNode
  | .enil => []
  | .econs v rest => v :: rest.toList

/-- JavaScript array indexing `a[i]` (`undefined` mapped to `none`). -/
def JElems.getIdx : JElems → Nat → Option JNode
  | .enil, _ => none
  | .econs v _, 0 => some v
  | .econs _ rest, n + 1 => rest.getIdx n

/-- JavaScript truthiness of a primitive value (no `NaN` in the model). -/
def JSValue.truthy : JSValue → Bool
  | .str s => !(s == "")
  | .num q => !(q == 0)
  | .jbool b => b
  | .jnull => false
  | .undef => false
  | .aliasV _ => true

/-- JavaScript truthiness of a value tree (objects and arrays are truthy). -/
def JNode.truthy : JNode → Bool
  | .prim v => v.truthy
  | .obj _ => true
  | .arr _ => true

/-- Whether `typeof v === "object"` in JavaScript (`null` and arrays included). -/
def JNode.isObjectType : JNode → Bool
  | .prim .jnull => true
  | .prim (.aliasV _) => true
  | .prim _ => false
  | .obj _ => true
  | .arr _ => true

/-- Field lookup on a JavaScript object (`o[k]`, `undefined` mapped to `none`). -/
def getField (fields : JFields) (k : String) : Option JNode :=
  match fields with
  | .nil => none
  | .fcons k2 v rest => if k2 == k then some v else getField rest k

/-- The JavaScript `k in o` test. -/
def hasField (fields : JFields) (k : String) : Bool :=
  match fields with
  | .nil => false
  | .fcons k2 _ rest => k2 == k || hasField rest k

/-- The JavaScript `a || b` operator on possibly-undefined values. -/
def jsOr (a b : Option JNode) : Option JNode :=
  match a with
  | some n => if n.truthy then some n else b
  | none => b

/-- A normalized token record, mirroring the object literal
`{$type: ..., $value: ..., $description: ...}` built by `flattenVariables`
(src/code.ts:422-426).  The `targetCollection`/`targetVariable` fields of the
`JSONVariableValue` interface are carried along; the normalizer never fills
them (the normalized object literal omits them, so reading them yields
`undefined`). -/
structure TokenRecord where
  dtype : Option JNode
  dvalue : Option JNode
  ddesc : Option JNode
  targetCollection : Option String := none
  targetVariable : Option String := none
  deriving DecidableEq

/-- Normalization of a leaf node to DTCG field names (src/code.ts:422-426):
`$type: value.$type || value.type`, `$value: value.$value !== undefined ?
value.$value : value.value`, `$description: value.$description || value.description`. -/
def normalizeFields (fields : JFields) : TokenRecord :=
  { dtype := jsOr (getField fields "$type") (getField fields "type")
    dvalue := (getField fields "$value").orElse (fun _ => getField fields "value")
    ddesc := jsOr (getField fields "$description") (getField fields "description") }

/-- Leaf classification (src/code.ts:408-413): a node is a variable leaf iff it
has both DTCG tags or both legacy tags. -/
def isVariableFields (fields : JFields) : Bool :=
  (hasField fields "$type" && hasField fields "$value") ||
  (hasField fields "type" && hasField fields "value")

/-- Legacy-dialect detection for one leaf (src/code.ts:417-419): legacy iff it
carries no DTCG tag but some legacy tag. -/
def isLegacyFields (fields : JFields) : Bool :=
  !hasField fields "$type" && !hasField fields "$value" &&
  (hasField fields "type" || hasField fields "value")

/-- Modelled JavaScript `String.prototype.startsWith` (character-list based so
that it computes in the kernel). -/
def jsStartsWith (s pre : String) : Bool := pre.data.isPrefixOf s.data

/-- Modelled JavaScript `String.prototype.endsWith`. -/
def jsEndsWith (s suf : String) : Bool := suf.data.isSuffixOf s.data

/-- ASCII lowercase of one character. -/
def charLower (c : Char) : Char :=
  if 'A' ≤ c && c ≤ 'Z' then Char.ofNat (c.toNat + 32) else c

/-- ASCII uppercase of one character. -/
def charUpper (c : Char) : Char :=
  if 'a' ≤ c && c ≤ 'z' then Char.ofNat (c.toNat - 32) else c

/-- Modelled JavaScript `String.prototype.toLowerCase` (ASCII range). -/
def jsToLower (s : String) : String := String.mk (s.data.map charLower)

/-- Modelled JavaScript `String.prototype.toUpperCase` (ASCII range). -/
def jsToUpper (s : String) : String := String.mk (s.data.map charUpper)

/-- Splitting a character list on a separator character. -/
def splitChar (c : Char) : List Char → List (List Char)
  | [] => [[]]
  | x :: xs =>
    match splitChar c xs with
    | [] => [[]]
    | w :: ws => if x == c then [] :: w :: ws else (x :: w) :: ws

/-- Modelled JavaScript `String.prototype.split` with a one-character
separator (the source only splits on `"."` and `"/"`). -/
def jsSplit (s : String) (c : Char) : List String :=
  (splitChar c s.data).map (fun l => String.mk l)

/-- JavaScript `Map.prototype.set`: update in place if the key exists
(preserving position), otherwise append. -/
def mapSet (m : List (String × α)) (k : String) (v : α) : List (String × α) :=
  if m.any (fun p => p.1 == k) then
    m.map (fun p => if p.1 == k then (k, v) else p)
  else m ++ [(k, v)]

mutual

/-- The loop body of `flattenVariables` (src/code.ts:396-439) over the entries
of an object, with the result map `acc` and the sticky legacy flag `lg`
threaded explicitly.  Keys starting with `_` or `$` are skipped; non-object
values are skipped; leaf objects are normalized and `set` into the result;
group objects are flattened recursively and their entries merged via `set`. -/
def flattenGo (pre : String) (acc : List (String × TokenRecord)) (lg : Bool) :
    JFields → List (String × TokenRecord) × Bool
  | .nil => (acc, lg)
  | .fcons k v rest =>
    if jsStartsWith k "_" || jsStartsWith k "$" then
      flattenGo pre acc lg rest
    else
      let newKey := if pre == "" then k else pre ++ "/" ++ k
      match v with
      | .obj fields =>
        if isVariableFields fields then
          flattenGo pre (mapSet acc newKey (normalizeFields fields))
            (lg || isLegacyFields fields) rest
        else
          let res := flattenGo newKey [] lg fields
          flattenGo pre (res.1.foldl (fun a p => mapSet a p.1 p.2) acc) res.2 rest
      | .arr elems =>
        let res := flattenArr newKey [] lg 0 elems
        flattenGo pre (res.1.foldl (fun a p => mapSet a p.1 p.2) acc) res.2 rest
      | .prim _ => flattenGo pre acc lg rest

/-- `flattenVariables` recursing into an array value: `Object.entries` of a
JavaScript array enumerates index keys `"0"`, `"1"`, ... (none of which start
with `_` or `$`). -/
def flattenArr (pre : String) (acc : List (String × TokenRecord)) (lg : Bool)
    (i : Nat) : JElems → List (String × TokenRecord) × Bool
  | .enil => (acc, lg)
  | .econs e rest =>
    let newKey := if pre == "" then toString i else pre ++ "/" ++ toString i
    match e with
    | .obj fields =>
      if isVariableFields fields then
        flattenArr pre (mapSet acc newKey (normalizeFields fields))
          (lg || isLegacyFields fields) (i + 1) rest
      else
        let res := flattenGo newKey [] lg fields
        flattenArr pre (res.1.foldl (fun a p => mapSet a p.1 p.2) acc) res.2 (i + 1) rest
    | .arr elems =>
      let res := flattenArr newKey [] lg 0 elems
      flattenArr pre (res.1.foldl (fun a p => mapSet a p.1 p.2) acc) res.2 (i + 1) rest
    | .prim _ => flattenArr pre acc lg (i + 1) rest

end

/-- `flattenVariables(obj, prefix, warnLegacy)` (src/code.ts:396-439), with the
result-map and legacy flag returned as a pair. -/
def flattenVariables (fields : JFields) (pre : String := "")
    (lg : Bool := false) : List (String × TokenRecord) × Bool :=
  flattenGo pre [] lg fields

/-! ## Host variable store model

The Figma variable API (collections, modes, variables, per-mode values) is the
external collaborator of the plugin.  It is modelled as explicit state:
identifiers are drawn from a counter, collections carry their modes, and
variables carry an association list of per-mode values.  All host calls the
plugin makes are modelled as pure state transformers. -/

/-- Host resolved data types (`VariableResolvedDataType`). -/
inductive FigType where
  | COLOR
  | FLOAT
  | BOOLEAN
  | STRING
  deriving DecidableEq, Repr

def FigType.toStr : FigType → String
  | .COLOR => "COLOR"
  | .FLOAT => "FLOAT"
  | .BOOLEAN => "BOOLEAN"
  | .STRING => "STRING"

/-- `mapJsonTypeToFigmaType` (src/code.ts:386-394). -/
def mapJsonTypeToFigmaType (jsonType : String) : FigType :=
  let t := jsToLower jsonType
  if t == "color" then .COLOR
  else if t == "number" then .FLOAT
  else if t == "boolean" then .BOOLEAN
  else if t == "string" then .STRING
  else .STRING

/-- A mode of a host collection. -/
structure VarMode where
  modeId : Nat
  name : String
  deriving DecidableEq, Repr

/-- A host variable collection. -/
structure VCollection where
  id : Nat
  name : String
  modes : List VarMode
  deriving DecidableEq, Repr

/-- A host variable. -/
structure HVariable where
  id : Nat
  name : String
  variableCollectionId : Nat
  resolvedType : FigType
  valuesByMode : List (Nat × JNode)
  deriving DecidableEq

/-- The host variable store. -/
structure Host where
  collections : List VCollection
  vars : List HVariable
  nextId : Nat
  deriving DecidableEq

def emptyHost : Host := ⟨[], [], 0⟩

/-- `figma.variables.createVariableCollection(name)`: a fresh collection starts
with a single default mode named `"Mode 1"`. -/
def createVariableCollection (h : Host) (n : String) : Host × VCollection :=
  let col : VCollection := ⟨h.nextId, n, [⟨h.nextId + 1, "Mode 1"⟩]⟩
  ({ h with collections := h.collections ++ [col], nextId := h.nextId + 2 }, col)

/-- `collection.renameMode(modeId, newName)`. -/
def renameMode (h : Host) (cid : Nat) (modeId : Nat) (newName : String) : Host :=
  { h with collections := h.collections.map (fun c =>
      if c.id == cid then
        { c with modes := c.modes.map (fun m =>
            if m.modeId == modeId then { m with name := newName } else m) }
      else c) }

/-- `collection.addMode(name)`, returning the fresh mode id. -/
def addMode (h : Host) (cid : Nat) (n : String) : Host × Nat :=
  ({ h with
      collections := h.collections.map (fun c =>
        if c.id == cid then { c with modes := c.modes ++ [⟨h.nextId, n⟩] } else c)
      nextId := h.nextId + 1 }, h.nextId)

/-- `figma.variables.createVariable(name, collection, type)`. -/
def createVariable (h : Host) (n : String) (cid : Nat) (t : FigType) : Host :=
  { h with vars := h.vars ++ [⟨h.nextId, n, cid, t, []⟩], nextId := h.nextId + 1 }

/-- Association-list update used for `valuesByMode`. -/
def setAssoc (m : List (Nat × JNode)) (k : Nat) (v : JNode) : List (Nat × JNode) :=
  if m.any (fun p => p.1 == k) then
    m.map (fun p => if p.1 == k then (k, v) else p)
  else m ++ [(k, v)]

/-- `variable.setValueForMode(modeId, value)` (modelled as always storing). -/
def setValueForMode (h : Host) (vid : Nat) (modeId : Nat) (val : JNode) : Host :=
  { h with vars := h.vars.map (fun v =>
      if v.id == vid then { v with valuesByMode := setAssoc v.valuesByMode modeId val } else v) }

/-- `figma.variables.getLocalVariableCollectionsAsync().find(c => c.name === n)`. -/
def findCollectionByName (h : Host) (n : String) : Option VCollection :=
  h.collections.find? (fun c => c.name == n)

/-- `getLocalVariablesAsync().find(v => v.name === n && v.variableCollectionId === cid)`. -/
def findVariable (h : Host) (n : String) (cid : Nat) : Option HVariable :=
  h.vars.find? (fun v => v.name == n && v.variableCollectionId == cid)

/-- Hex digit value of a character. -/
def hexVal (c : Char) : Nat :=
  if c.isDigit then c.toNat - 48
  else if 'a' ≤ c && c ≤ 'f' then c.toNat - 87
  else if 'A' ≤ c && c ≤ 'F' then c.toNat - 70
  else 0

/-- Modelled host API `figma.util.rgb(hex)`: parses `#RRGGBB` (or `#RGB`) into
an `{r, g, b}` object with channels in the 0-1 range; malformed strings yield
the zero color in this model (the claims never exercise that case). -/
def figmaUtilRgb (s : String) : JNode :=
  match s.data with
  | ['#', a, b, c, d, e, f] =>
    .obj (.fcons "r" (.prim (.num ((hexVal a * 16 + hexVal b : ℚ) / 255)))
         (.fcons "g" (.prim (.num ((hexVal c * 16 + hexVal d : ℚ) / 255)))
         (.fcons "b" (.prim (.num ((hexVal e * 16 + hexVal f : ℚ) / 255))) .nil)))
  | ['#', a, b, c] =>
    .obj (.fcons "r" (.prim (.num ((hexVal a * 17 : ℚ) / 255)))
         (.fcons "g" (.prim (.num ((hexVal b * 17 : ℚ) / 255)))
         (.fcons "b" (.prim (.num ((hexVal c * 17 : ℚ) / 255))) .nil)))
  | _ =>
    .obj (.fcons "r" (.prim (.num 0))
         (.fcons "g" (.prim (.num 0))
         (.fcons "b" (.prim (.num 0)) .nil)))

/-! ## JavaScript `parseFloat` model

`parseFloat` over decimal notation, returning `none` for `NaN`.  The
`Infinity` spellings are outside this model (they are not decimal numbers and
no claim involves them). -/

def digitsToNat (ds : List Char) : Nat :=
  ds.foldl (fun a c => a * 10 + (c.toNat - 48)) 0

def jsWhitespace (c : Char) : Bool :=
  c == ' ' || c == '\t' || c == '\n' || c == '\r' || c == '\x0b' || c == '\x0c'

def jsParseFloat (s : String) : Option ℚ :=
  let cs := s.data.dropWhile jsWhitespace
  let (sign, cs1) : ℚ × List Char :=
    match cs with
    | '-' :: r => (-1, r)
    | '+' :: r => (1, r)
    | _ => (1, cs)
  let (ip, cs2) := cs1.span Char.isDigit
  let (fp, cs3) :=
    match cs2 with
    | '.' :: r => r.span Char.isDigit
    | _ => ([], cs2)
  if ip.isEmpty && fp.isEmpty then none
  else
    let mantissa : ℚ := (digitsToNat ip : ℚ) + (digitsToNat fp : ℚ) / ((10 : ℚ) ^ fp.length)
    let expo : ℤ :=
      match cs3 with
      | 'e' :: r | 'E' :: r =>
        let (esign, r2) : ℤ × List Char :=
          match r with
          | '-' :: rr => (-1, rr)
          | '+' :: rr => (1, rr)
          | _ => (1, r)
        let (ed, _) := r2.span Char.isDigit
        if ed.isEmpty then 0 else esign * (digitsToNat ed : ℤ)
      | _ => 0
    some (sign * mantissa * (10 : ℚ) ^ expo)

/-! ## Import (`handleImport`, src/code.ts:786-1004) -/

/-- Log / UI events emitted through the plugin's logging side channel. -/
inductive LogEvent where
  | info (msg : String)
  | warn (msg : String)
  | error (msg : String)
  | progress (msg : String)
  deriving DecidableEq, Repr

/-- A token group as delivered by JSON parsing. -/
abbrev Group := JFields

/-- A root document: collection name to mode name to token tree. -/
abbrev Doc := List (String × List (String × Group))

/-- JavaScript `Map.prototype.get` on our association-list maps. -/
def lookupStr (m : List (String × α)) (k : String) : Option α :=
  (m.find? (fun p => p.1 == k)).map (fun p => p.2)

/-- Pass 1 mode loop (src/code.ts:811-829).  `snapshot` is the `existingModes`
array captured once before the loop (src/code.ts:809): renames and additions
performed inside the loop are not visible through it. -/
def modeLoop (h : Host) (cid : Nat) (cname : String) (snapshot : List VarMode)
    (i : Nat) (mmap : List (String × Nat)) (logs : List LogEvent) :
    List String → Host × List (String × Nat) × List LogEvent
  | [] => (h, mmap, logs)
  | mn :: rest =>
    match snapshot.find? (fun m => m.name == mn) with
    | some m => modeLoop h cid cname snapshot (i + 1) (mapSet mmap mn m.modeId) logs rest
    | none =>
      match snapshot.find? (fun m => m.name == "Mode 1") with
      | some dm =>
        if i == 0 then
          modeLoop (renameMode h cid dm.modeId mn) cid cname snapshot (i + 1)
            (mapSet mmap mn dm.modeId)
            (logs ++ [.info ("Renamed default \"Mode 1\" to \"" ++ mn ++ "\" in collection \"" ++ cname ++ "\"")])
            rest
        else
          let (h2, mid) := addMode h cid mn
          modeLoop h2 cid cname snapshot (i + 1) (mapSet mmap mn mid)
            (logs ++ [.info ("Adding mode \"" ++ mn ++ "\" to collection \"" ++ cname ++ "\"")])
            rest
      | none =>
        let (h2, mid) := addMode h cid mn
        modeLoop h2 cid cname snapshot (i + 1) (mapSet mmap mn mid)
          (logs ++ [.info ("Adding mode \"" ++ mn ++ "\" to collection \"" ++ cname ++ "\"")])
          rest

/-- Pass 1 (src/code.ts:793-831): fetch-or-create each collection, then
reconcile its modes.  Returns the host, the collection map, the per-collection
mode maps, and the logs. -/
def pass1Go (h : Host) (cmap : List (String × Nat))
    (mmaps : List (String × List (String × Nat))) (logs : List LogEvent) :
    Doc → Host × List (String × Nat) × List (String × List (String × Nat)) × List LogEvent
  | [] => (h, cmap, mmaps, logs)
  | (cn, modes) :: rest =>
    let fetched : Host × VCollection × List LogEvent :=
      match findCollectionByName h cn with
      | some c => (h, c, logs)
      | none =>
        let hc := createVariableCollection h cn
        (hc.1, hc.2, logs ++ [.info ("Creating collection: " ++ cn)])
    let (h1, col, logs1) := fetched
    let (h2, mmap, logs2) :=
      modeLoop h1 col.id cn col.modes 0 [] logs1 (modes.map (fun p => p.1))
    pass1Go h2 (mapSet cmap cn col.id) (mapSet mmaps cn mmap) logs2 rest

/-- Pass 2 type selection (src/code.ts:855-859): `STRING` unless a truthy
`$type` is present; a truthy non-string `$type` makes
`mapJsonTypeToFigmaType`'s `toLowerCase` call throw. -/
def pass2Type (d : Option JNode) : Except String FigType :=
  match d with
  | none => .ok .STRING
  | some n =>
    if n.truthy then
      match n with
      | .prim (.str s) => .ok (mapJsonTypeToFigmaType s)
      | _ => .error "TypeError: jsonType.toLowerCase is not a function"
    else .ok .STRING

/-- Pass 2 inner loop over one collection's discovered variables
(src/code.ts:843-868).  An uncaught exception aborts the import; the error
value carries the host state and logs at the throw point. -/
def pass2Vars (h : Host) (cid : Nat) (total i : Nat) (logs : List LogEvent) :
    List (String × TokenRecord) →
    Except (Host × List LogEvent × String) (Host × List LogEvent)
  | [] => .ok (h, logs)
  | (varName, varData) :: rest =>
    let logs2 := if i % 20 == 0 then
        logs ++ [.progress ("Creating variables... (" ++ toString i ++ "/" ++ toString total ++ ")")]
      else logs
    match findVariable h varName cid with
    | some _ => pass2Vars h cid total (i + 1) logs2 rest
    | none =>
      match pass2Type varData.dtype with
      | .error e => .error (h, logs2, e)
      | .ok t =>
        pass2Vars (createVariable h varName cid t) cid total (i + 1)
          (logs2 ++ [.info ("Creating variable: " ++ varName ++ " (" ++ t.toStr ++ ")")]) rest

/-- Pass 2 (src/code.ts:833-869): for each collection, flatten only the first
declared mode's tree and create the missing variables.  A collection with no
declared modes makes `flattenVariables(modes[undefined])` throw. -/
def pass2 (h : Host) (cmap : List (String × Nat)) (lgflag : Bool) (logs : List LogEvent) :
    Doc → Except (Host × List LogEvent × String) (Host × Bool × List LogEvent)
  | [] => .ok (h, lgflag, logs)
  | (cn, modes) :: rest =>
    match lookupStr cmap cn with
    | none => pass2 h cmap lgflag logs rest
    | some cid =>
      match modes with
      | [] => .error (h, logs, "TypeError: Cannot convert undefined or null to object")
      | (_, g0) :: _ =>
        let fl := flattenVariables g0 "" lgflag
        match pass2Vars h cid fl.1.length 0 logs fl.1 with
        | .error e => .error e
        | .ok (h2, logs2) => pass2 h2 cmap fl.2 logs2 rest

/-- JavaScript truthiness of a possibly-undefined string field. -/
def strTruthy : Option String → Bool
  | some s => !(s == "")
  | none => false

/-- Pass 3 alias detection (src/code.ts:903-919): explicit
`targetCollection`/`targetVariable` fields take precedence; otherwise a string
value of the form `{Collection.Path.To.Variable}` with at least two
dot-segments denotes an alias. -/
def detectAlias (varData : TokenRecord) : Option (String × String) :=
  if strTruthy varData.targetCollection && strTruthy varData.targetVariable then
    some (varData.targetCollection.getD "", varData.targetVariable.getD "")
  else
    match varData.dvalue with
    | some (.prim (.str s)) =>
      if jsStartsWith s "\x7b" && jsEndsWith s "\x7d" then
        let content := (s.drop 1).dropRight 1
        let parts := jsSplit content '.'
        if parts.length ≥ 2 then
          some (parts.headD "", String.intercalate "/" (parts.drop 1))
        else none
      else none
    | _ => none

def fuzzyMsg (tv tc foundName : String) : String :=
  "Fuzzy match found for alias \"" ++ tv ++ "\": Expected collection \"" ++ tc ++
    "\", found in \"" ++ foundName ++ "\""

def aliasNotFoundMsg (tv tc : String) : String :=
  "Alias target variable not found: \"" ++ tv ++ "\" (Collection: \"" ++ tc ++ "\")"

/-- Pass 3 alias resolution (src/code.ts:921-942): exact match (collection by
name, then variable by name scoped to its id), then fuzzy fallback over the
whole variable namespace with a warning. -/
def resolveAliasTarget (h : Host) (tc tv : String) : Option HVariable × List LogEvent :=
  let exactM : Option HVariable :=
    match h.collections.find? (fun c => c.name == tc) with
    | some targetCol =>
      h.vars.find? (fun v => v.name == tv && v.variableCollectionId == targetCol.id)
    | none => none
  match exactM with
  | some v => (some v, [])
  | none =>
    match h.vars.find? (fun v => v.name == tv) with
    | some v =>
      let foundCol := h.collections.find? (fun c => c.id == v.variableCollectionId)
      (some v, [.warn (fuzzyMsg tv tc (((foundCol.map (fun c => c.name))).getD "undefined"))])
    | none => (none, [])

/-- Pass 3 value coercion, the non-alias branch (src/code.ts:949-982):
structured full-spec values are unwrapped, then hex-color / float / boolean
strings are coerced.  The boolean branch reproduces the source's two
consecutive `if` statements: after the first one replaces the value with the
boolean `true`, the second calls `.toLowerCase()` on it, which throws. -/
def coerceValue (rtype : FigType) (valueToSet : Option JNode) : Except String (Option JNode) :=
  let v1 : Option JNode :=
    match valueToSet with
    | some (.obj fields) =>
      if hasField fields "colorSpace" && hasField fields "components" &&
          (match getField fields "components" with | some (.arr _) => true | _ => false) then
        match getField fields "components" with
        | some (.arr comps) =>
          some (.obj (.fcons "r" ((comps.getIdx 0).getD (.prim .undef))
                     (.fcons "g" ((comps.getIdx 1).getD (.prim .undef))
                     (.fcons "b" ((comps.getIdx 2).getD (.prim .undef))
                     (.fcons "a" (.prim (.num 1)) .nil)))))
        | _ => valueToSet
      else if hasField fields "value" && hasField fields "unit" then
        some ((getField fields "value").getD (.prim .undef))
      else valueToSet
    | _ => valueToSet
  match v1 with
  | some (.prim (.str s)) =>
    if rtype == .COLOR && jsStartsWith s "#" then
      .ok (some (figmaUtilRgb s))
    else if rtype == .FLOAT then
      match jsParseFloat s with
      | some q => .ok (some (.prim (.num q)))
      | none => .ok (some (.prim (.str s)))
    else if rtype == .BOOLEAN then
      let w : JNode := if jsToLower s == "true" then .prim (.jbool true) else .prim (.str s)
      match w with
      | .prim (.str s1) =>
        .ok (some (if jsToLower s1 == "false" then .prim (.jbool false) else w))
      | _ => .error "TypeError: valueToSet.toLowerCase is not a function"
    else .ok v1
  | _ => .ok v1

/-- Pass 3 processing of one (variable name, token record) pair for one mode
(src/code.ts:892-988), including the per-item `try`/`catch`. -/
def processValue (h : Host) (cid : Nat) (modeId : Nat) (varName : String)
    (varData : TokenRecord) : Host × List LogEvent :=
  match findVariable h varName cid with
  | none => (h, [])
  | some vrb =>
    match detectAlias varData with
    | some (tc, tv) =>
      match resolveAliasTarget h tc tv with
      | (some targetVar, logs) =>
        (setValueForMode h vrb.id modeId (.prim (.aliasV targetVar.id)), logs)
      | (none, logs) => (h, logs ++ [.warn (aliasNotFoundMsg tv tc)])
    | none =>
      match coerceValue vrb.resolvedType varData.dvalue with
      | .ok v2 => (setValueForMode h vrb.id modeId (v2.getD (.prim .undef)), [])
      | .error e =>
        (h, [.error ("Error setting value for \"" ++ varName ++ "\": " ++ e)])

/-- Pass 3 inner loop over one mode's flattened records (src/code.ts:884-989). -/
def pass3Vars (h : Host) (cid : Nat) (modeId : Nat) (total i : Nat) (logs : List LogEvent) :
    List (String × TokenRecord) → Host × List LogEvent
  | [] => (h, logs)
  | (varName, varData) :: rest =>
    let logs2 := if i % 20 == 0 then
        logs ++ [.progress ("Setting values... (" ++ toString i ++ "/" ++ toString total ++ ")")]
      else logs
    let r := processValue h cid modeId varName varData
    pass3Vars r.1 cid modeId total (i + 1) (logs2 ++ r.2) rest

/-- Pass 3 loop over one collection's modes (src/code.ts:877-990). -/
def pass3Modes (h : Host) (cid : Nat) (mmap : List (String × Nat)) (lgflag : Bool)
    (logs : List LogEvent) : List (String × Group) → Host × Bool × List LogEvent
  | [] => (h, lgflag, logs)
  | (modeName, varGroups) :: rest =>
    match lookupStr mmap modeName with
    | none => pass3Modes h cid mmap lgflag logs rest
    | some modeId =>
      let fl := flattenVariables varGroups "" lgflag
      let r := pass3Vars h cid modeId fl.1.length 0 logs fl.1
      pass3Modes r.1 cid mmap fl.2 r.2 rest

/-- Pass 3 (src/code.ts:871-991). -/
def pass3 (h : Host) (cmap : List (String × Nat))
    (mmaps : List (String × List (String × Nat))) (lgflag : Bool) (logs : List LogEvent) :
    Doc → Host × Bool × List LogEvent
  | [] => (h, lgflag, logs)
  | (cn, modes) :: rest =>
    match lookupStr cmap cn with
    | none => pass3 h cmap mmaps lgflag logs rest
    | some cid =>
      let mmap := (lookupStr mmaps cn).getD []
      let r := pass3Modes h cid mmap lgflag logs modes
      pass3 r.1 cmap mmaps r.2.1 r.2.2 rest

def legacyWarning : String :=
  "Your JSON file uses legacy format (value/type). Please update to W3C DTCG format ($value/$type) for full compatibility."

/-- Outcome of one import invocation: final host state, the emitted log/UI
events, the sticky legacy flag, and whether the run reached the final
`import-success` message (`false` means the top-level `catch` fired). -/
structure ImportResult where
  host : Host
  logs : List LogEvent
  legacy : Bool
  success : Bool
  deriving DecidableEq

/-- `handleImport(data)` (src/code.ts:786-1004): the three passes in sequence,
the end-of-import legacy warning, and the top-level `try`/`catch`. -/
def runImport (data : Doc) (h : Host) : ImportResult :=
  let logs0 : List LogEvent := [.info "Starting import..."]
  let p1 := pass1Go h [] [] logs0 data
  match pass2 p1.1 p1.2.1 false p1.2.2.2 data with
  | .error e =>
    { host := e.1, logs := e.2.1 ++ [.error e.2.2], legacy := false, success := false }
  | .ok r =>
    let p3 := pass3 r.1 p1.2.1 p1.2.2.1 r.2.1 r.2.2 data
    let logs4 := if p3.2.1 then p3.2.2 ++ [.warn legacyWarning] else p3.2.2
    { host := p3.1, logs := logs4 ++ [.info "Import completed successfully."],
      legacy := p3.2.1, success := true }

/-! ## Export serializers (src/code.ts:479-779) -/

/-- Lowercase hexadecimal digit character, as produced by JavaScript
`Number.prototype.toString(16)`. -/
def hexDigitChar (n : Nat) : Char :=
  if n < 10 then Char.ofNat (48 + n) else Char.ofNat (87 + n)

/-- Fuel-driven hex digit expansion (structural so that it computes in the
kernel; the fuel is always sufficient since `n / 16 < n` for positive `n`). -/
def toHexGo : Nat → Nat → List Char
  | _, 0 => []
  | 0, _ + 1 => []
  | fuel + 1, n + 1 => toHexGo fuel ((n + 1) / 16) ++ [hexDigitChar ((n + 1) % 16)]

/-- Hex digit list of a positive number, most significant first. -/
def toHexAux (n : Nat) : List Char := toHexGo n n

/-- JavaScript `n.toString(16)` for a nonnegative integer. -/
def jsToString16 (n : Nat) : String :=
  if n = 0 then "0" else ⟨toHexAux n⟩

/-- JavaScript `Math.round`: round half toward positive infinity. -/
def jsRound (q : ℚ) : ℤ := ⌊q + 1 / 2⌋

/-- `rgbToHex` (src/code.ts:486-491):
`((1 << 24) + (rInt << 16) + (gInt << 8) + bInt).toString(16).slice(1).toUpperCase()`.
The bit shifts are modelled arithmetically, which coincides with the 32-bit
JavaScript shifts for channel values in the host's 0-1 range. -/
def rgbToHex (r g b : ℚ) : String :=
  let rInt := jsRound (r * 255)
  let gInt := jsRound (g * 255)
  let bInt := jsRound (b * 255)
  jsToUpper ((jsToString16 (2 ^ 24 + rInt * 2 ^ 16 + gInt * 2 ^ 8 + bInt).toNat).drop 1)

inductive ExportFormat where
  | simplified
  | fullspec
  | css
  | tailwind
  deriving DecidableEq

/-- The alias test used by the exporters (src/code.ts:496):
`typeof value === 'object' && value !== null && 'type' in value &&
value.type === 'VARIABLE_ALIAS'`. -/
def isVariableAliasValue : JNode → Bool
  | .prim (.aliasV _) => true
  | .obj fields =>
    hasField fields "type" &&
      (getField fields "type" == some (.prim (.str "VARIABLE_ALIAS")))
  | _ => false

/-- An object value carrying an `r` field (the exporters' scalar-color test). -/
def objWithR : JNode → Option JFields
  | .obj fields => if hasField fields "r" then some fields else none
  | _ => none

/-- Numeric content of a color channel field.  The source does raw arithmetic
on the channel; the model is restricted to numeric channels (host color
objects always satisfy this). -/
def numOr0 : Option JNode → ℚ
  | some (.prim (.num q)) => q
  | _ => 0

/-- `convertValueForFormat` (src/code.ts:494-522); `none` models the `null`
alias signal. -/
def convertValueForFormat (value : JNode) (rtype : FigType) (format : ExportFormat) :
    Option JNode :=
  if isVariableAliasValue value then none
  else if format == .fullspec then
    match (if rtype == .COLOR then objWithR value else none) with
    | some fields =>
      some (.obj (.fcons "colorSpace" (.prim (.str "srgb"))
                 (.fcons "components" (.arr (JElems.ofList
                    [(getField fields "r").getD (.prim .undef),
                     (getField fields "g").getD (.prim .undef),
                     (getField fields "b").getD (.prim .undef)])) .nil)))
    | none =>
      if rtype == .FLOAT then
        some (.obj (.fcons "value" value (.fcons "unit" (.prim (.str "px")) .nil)))
      else some value
  else if format == .simplified then
    match (if rtype == .COLOR then objWithR value else none) with
    | some fields =>
      some (.prim (.str ("#" ++ rgbToHex (numOr0 (getField fields "r"))
        (numOr0 (getField fields "g")) (numOr0 (getField fields "b")))))
    | none => some value
  else some value

/-- Left-pad with a character. -/
def padLeft (s : String) (c : Char) (n : Nat) : String :=
  String.mk (List.replicate (n - s.length) c) ++ s

/-- Modelled JavaScript number-to-string: exact for integers and for rationals
with a decimal power denominator (the cases the plugin produces); other
rationals fall back to a fraction rendering. -/
def jsNumToString (q : ℚ) : String :=
  let sign := if q < 0 then "-" else ""
  let num := q.num.natAbs
  match (List.range 19).find? (fun k => 10 ^ k % q.den == 0) with
  | some k =>
    if k == 0 then sign ++ toString (num / q.den)
    else
      let scaled := num * (10 ^ k / q.den)
      sign ++ toString (scaled / 10 ^ k) ++ "." ++
        padLeft (toString (scaled % 10 ^ k)) '0' k
  | none => sign ++ toString num ++ "/" ++ toString q.den

/-- One-level stringification for array elements (enough for this model). -/
def jsDisplayShallow : JNode → String
  | .prim (.str s) => s
  | .prim (.num q) => jsNumToString q
  | .prim (.jbool b) => if b then "true" else "false"
  | .prim .jnull => ""
  | .prim .undef => ""
  | .prim (.aliasV _) => "[object Object]"
  | .obj _ => "[object Object]"
  | .arr _ => ""

/-- Modelled JavaScript template-literal stringification of a value. -/
def jsDisplay : JNode → String
  | .prim (.str s) => s
  | .prim (.num q) => jsNumToString q
  | .prim (.jbool b) => if b then "true" else "false"
  | .prim .jnull => "null"
  | .prim .undef => "undefined"
  | .prim (.aliasV _) => "[object Object]"
  | .obj _ => "[object Object]"
  | .arr elems => String.intercalate "," (elems.toList.map (fun e => jsDisplayShallow e))

/-- JavaScript `String.prototype.includes`. -/
def strIncludes (s pat : String) : Bool :=
  (List.range (s.length + 1)).any (fun i => pat.data.isPrefixOf (s.data.drop i))

/-- The Tailwind theme sections built by `exportAsTailwind` (src/code.ts:681-692). -/
structure TailwindTheme where
  colors : List (String × JNode) := []
  spacing : List (String × JNode) := []
  fontSize : List (String × JNode) := []
  fontFamily : List (String × JNode) := []
  fontWeight : List (String × JNode) := []
  lineHeight : List (String × JNode) := []
  borderRadius : List (String × JNode) := []
  boxShadow : List (String × JNode) := []
  opacity : List (String × JNode) := []
  zIndex : List (String × JNode) := []
  deriving DecidableEq

/-- `variable.valuesByMode[modeId]` (`undefined` when absent). -/
def getAssoc (m : List (Nat × JNode)) (k : Nat) : Option JNode :=
  (m.find? (fun p => p.1 == k)).map (fun p => p.2)

/-- `figma.variables.getVariableByIdAsync`. -/
def getVariableById (h : Host) (vid : Nat) : Option HVariable :=
  h.vars.find? (fun v => v.id == vid)

/-- The per-variable loop body of `exportAsTailwind` (src/code.ts:701-746). -/
def tailwindStep (h : Host) (theme : TailwindTheme) (vrb : HVariable) (modeId : Nat) :
    TailwindTheme :=
  let value : JNode := (getAssoc vrb.valuesByMode modeId).getD (.prim .undef)
  let tailwindKey := jsToLower (String.intercalate "-" (jsSplit vrb.name '/'))
  match vrb.resolvedType with
  | .COLOR =>
    if isVariableAliasValue value then
      match value with
      | .prim (.aliasV aliasId) =>
        match getVariableById h aliasId with
        | some targetVariable =>
          let refKey := jsToLower (String.intercalate "-" (jsSplit targetVariable.name '/'))
          { theme with colors := (mapSet theme.colors tailwindKey
              (.prim (.str ("\x7bcolors." ++ refKey ++ "\x7d")))) }
        | none => theme
      | _ => theme
    else
      match objWithR value with
      | some fields =>
        { theme with colors := (mapSet theme.colors tailwindKey
            (.prim (.str ("#" ++ rgbToHex (numOr0 (getField fields "r"))
              (numOr0 (getField fields "g")) (numOr0 (getField fields "b")))))) }
      | none => theme
  | .FLOAT =>
    let lowerName := jsToLower vrb.name
    if strIncludes lowerName "spacing" || strIncludes lowerName "space" ||
        strIncludes lowerName "gap" || strIncludes lowerName "margin" ||
        strIncludes lowerName "padding" then
      { theme with spacing := (mapSet theme.spacing tailwindKey
          (.prim (.str (jsDisplay value ++ "px")))) }
    else if strIncludes lowerName "font" && strIncludes lowerName "size" then
      { theme with fontSize := (mapSet theme.fontSize tailwindKey
          (.prim (.str (jsDisplay value ++ "px")))) }
    else if strIncludes lowerName "radius" || strIncludes lowerName "rounded" then
      { theme with borderRadius := (mapSet theme.borderRadius tailwindKey
          (.prim (.str (jsDisplay value ++ "px")))) }
    else
      { theme with spacing := (mapSet theme.spacing tailwindKey
          (.prim (.str (jsDisplay value ++ "px")))) }
  | .STRING =>
    let lowerName := jsToLower vrb.name
    if strIncludes lowerName "font" &&
        (strIncludes lowerName "family" || strIncludes lowerName "face") then
      { theme with fontFamily := (mapSet theme.fontFamily tailwindKey
          (match value with
           | .prim (.str _) => .arr (.econs value .enil)
           | _ => .prim (.str (jsDisplay value)))) }
    else if strIncludes lowerName "shadow" then
      { theme with boxShadow := (mapSet theme.boxShadow tailwindKey
          (.prim (.str (jsDisplay value)))) }
    else theme
  | .BOOLEAN => theme

/-- The collection/variable traversal of `exportAsTailwind` (src/code.ts:694-747):
each collection contributes its variables' values at its first mode only. -/
def exportAsTailwind (h : Host) : TailwindTheme :=
  h.collections.foldl (fun theme c =>
    match c.modes.head? with
    | none => theme
    | some mode =>
      (h.vars.filter (fun v => v.variableCollectionId == c.id)).foldl
        (fun th v => tailwindStep h th v mode.modeId) theme) {}

/-! ## Auxiliary predicates for the theorems -/

/-- A type tag that Pass 2 can consume without throwing: absent, a string, or
not truthy. -/
def okTypeTag : Option JNode → Bool
  | none => true
  | some (.prim (.str _)) => true
  | some (.prim v) => !v.truthy
  | some (.obj _) => false
  | some (.arr _) => false

/-- The resolved type Pass 2 assigns to a record with a benign type tag:
`mapJsonTypeToFigmaType` of the string tag, `STRING` otherwise (the source's
truthiness test coincides with this because `mapJsonTypeToFigmaType ""` is
`STRING`). -/
def specPass2Type (d : Option JNode) : FigType :=
  match d with
  | some (.prim (.str s)) => mapJsonTypeToFigmaType s
  | _ => .STRING

/-- A collection entry the import can process to completion: at least one
declared mode, and every first-mode record's type tag benign. -/
def wfCollection (modes : List (String × Group)) : Bool :=
  match modes with
  | [] => false
  | (_, g0) :: _ => (flattenVariables g0 "" false).1.all (fun r => okTypeTag r.2.dtype)

/-- A document the import processes to completion. -/
def wfDoc (data : Doc) : Bool := data.all (fun p => wfCollection p.2)

/-- The identity-relevant fields of a host variable (everything except its
per-mode values). -/
def varSig (v : HVariable) : Nat × String × Nat × FigType :=
  (v.id, v.name, v.variableCollectionId, v.resolvedType)

/-- No mode of the collection is literally named `"Mode 1"`. -/
def noMode1 (c : VCollection) : Bool :=
  c.modes.all (fun m => !(m.name == "Mode 1"))

/-- A legacy-dialect leaf `{type: t, value: v, description: d}`. -/
def legacyLeafFields (t : String) (v : JNode) (d : String) : JFields :=
  .fcons "type" (.prim (.str t))
    (.fcons "value" v (.fcons "description" (.prim (.str d)) .nil))

/-- A DTCG-dialect leaf `{$type: t, $value: v, $description: d}`. -/
def dtcgLeafFields (t : String) (v : JNode) (d : String) : JFields :=
  .fcons "$type" (.prim (.str t))
    (.fcons "$value" v (.fcons "$description" (.prim (.str d)) .nil))

/-- The normalized record both dialect forms are expected to produce. -/
def normRecord (t : String) (v : JNode) (d : String) : TokenRecord :=
  { dtype := some (.prim (.str t)), dvalue := some v, ddesc := some (.prim (.str d)) }

/-- A one-collection, one-mode, one-leaf document around a given leaf. -/
def dialectDoc (p : String) (leaf : JFields) : Doc :=
  [("Collection", [("ModeA", .fcons p (.obj leaf) .nil)])]

/-- Two-digit uppercase hexadecimal rendering of a byte (specification-side
description of one channel of `rgbToHex`'s output). -/
def hexByteU (n : Nat) : String :=
  String.mk [charUpper (hexDigitChar (n / 16)), charUpper (hexDigitChar (n % 16))]

/-- An uppercase hexadecimal digit character. -/
def isUpperHexDigit (c : Char) : Bool :=
  c.isDigit || ('A' ≤ c && c ≤ 'F')

/-! # Theorems -/

/-! ## Basic properties of the flattening traversal -/

/-- A group entry holding a primitive value contributes nothing to the
flattening loop. -/
theorem flattenGo_prim_cons (pre : String) (acc : List (String × TokenRecord)) (lg : Bool)
    (k : String) (x : JSValue) (rest : JFields) :
    flattenGo pre acc lg (.fcons k (.prim x) rest) = flattenGo pre acc lg rest := by
  rw [flattenGo]
  split <;> rfl

mutual

/-- The flattened record map does not depend on the incoming legacy flag. -/
theorem flattenGo_fst_flag (pre : String) (acc : List (String × TokenRecord)) (lg lg2 : Bool) :
    (fs : JFields) → (flattenGo pre acc lg fs).1 = (flattenGo pre acc lg2 fs).1
  | .nil => rfl
  | .fcons k v rest => by
    rw [flattenGo, flattenGo]
    split
    · exact flattenGo_fst_flag pre acc lg lg2 rest
    · cases v with
      | prim w => exact flattenGo_fst_flag pre acc lg lg2 rest
      | obj fields =>
        simp only
        by_cases hv : isVariableFields fields = true
        · rw [if_pos hv, if_pos hv]
          exact flattenGo_fst_flag pre _ _ _ rest
        · rw [if_neg hv, if_neg hv]
          rw [flattenGo_fst_flag (if pre == "" then k else pre ++ "/" ++ k) [] lg lg2 fields]
          exact flattenGo_fst_flag pre _ _ _ rest
      | arr elems =>
        simp only
        rw [flattenArr_fst_flag (if pre == "" then k else pre ++ "/" ++ k) [] lg lg2 0 elems]
        exact flattenGo_fst_flag pre _ _ _ rest

/-- The array analogue of `flattenGo_fst_flag`. -/
theorem flattenArr_fst_flag (pre : String) (acc : List (String × TokenRecord)) (lg lg2 : Bool)
    (i : Nat) : (es : JElems) → (flattenArr pre acc lg i es).1 = (flattenArr pre acc lg2 i es).1
  | .enil => rfl
  | .econs e rest => by
    cases e with
    | prim w =>
      simp only [flattenArr]
      exact flattenArr_fst_flag pre acc lg lg2 (i + 1) rest
    | obj fields =>
      simp only [flattenArr]
      by_cases hv : isVariableFields fields = true
      · rw [if_pos hv, if_pos hv]
        exact flattenArr_fst_flag pre _ _ _ (i + 1) rest
      · rw [if_neg hv, if_neg hv]
        rw [flattenGo_fst_flag (if pre == "" then toString i else pre ++ "/" ++ toString i)
          [] lg lg2 fields]
        exact flattenArr_fst_flag pre _ _ _ (i + 1) rest
    | arr elems =>
      simp only [flattenArr]
      rw [flattenArr_fst_flag (if pre == "" then toString i else pre ++ "/" ++ toString i)
        [] lg lg2 0 elems]
      exact flattenArr_fst_flag pre _ _ _ (i + 1) rest

end

/-! ## C10 -/

/-- C10: a group entry whose value is not an object — a bare string, number,
boolean, or null — is omitted entirely by the flattening traversal (neither
classified as a leaf nor recursed into), so it is invisible to Pass 2
(variable creation) and Pass 3 (value setting): the whole import run is
unchanged by removing such an entry. -/
theorem primitive_group_entries_invisible :
    (∀ pre acc lg k x rest,
        flattenGo pre acc lg (.fcons k (.prim x) rest) = flattenGo pre acc lg rest) ∧
    (∀ (fields : JFields) pre lg k x,
        flattenVariables (.fcons k (.prim x) fields) pre lg = flattenVariables fields pre lg) ∧
    (∀ cn mn k x (fields : JFields) (h : Host),
        runImport [(cn, [(mn, JFields.fcons k (.prim x) fields)])] h =
          runImport [(cn, [(mn, fields)])] h) := by
  refine ⟨flattenGo_prim_cons, ?_, ?_⟩
  · intro fields pre lg k x
    simp only [flattenVariables, flattenGo_prim_cons]
  · intro cn mn k x fields h
    simp only [runImport, pass1Go, pass2, pass3, pass3Modes, List.map, flattenVariables,
      flattenGo_prim_cons]

/-! ## C3: alias detection precedence -/

/-- C3: for every token record processed in Pass 3, alias detection follows
the precedence: explicit `targetCollection`/`targetVariable` fields present
(truthy) make it an alias with that target, regardless of the value;
otherwise a string value `{content}` whose content splits on `"."` into at
least two segments is an alias with segment 0 as the target collection and
segments 1.. joined by `"/"` as the target variable path; a braced string
with fewer than two dot-segments is not treated as an alias. -/
theorem alias_detection_precedence :
    (∀ (r : TokenRecord) (tc tv : String), r.targetCollection = some tc →
        r.targetVariable = some tv → tc ≠ "" → tv ≠ "" →
        detectAlias r = some (tc, tv)) ∧
    (∀ (r : TokenRecord) (s : String),
        (strTruthy r.targetCollection && strTruthy r.targetVariable) = false →
        r.dvalue = some (.prim (.str s)) →
        jsStartsWith s "\x7b" = true → jsEndsWith s "\x7d" = true →
        2 ≤ (jsSplit ((s.drop 1).dropRight 1) '.').length →
        detectAlias r = some ((jsSplit ((s.drop 1).dropRight 1) '.').headD "",
          String.intercalate "/" ((jsSplit ((s.drop 1).dropRight 1) '.').drop 1))) ∧
    (∀ (r : TokenRecord) (s : String),
        (strTruthy r.targetCollection && strTruthy r.targetVariable) = false →
        r.dvalue = some (.prim (.str s)) →
        jsStartsWith s "\x7b" = true → jsEndsWith s "\x7d" = true →
        (jsSplit ((s.drop 1).dropRight 1) '.').length < 2 →
        detectAlias r = none) := by
  refine ⟨?_, ?_, ?_⟩
  · intro r tc tv htc htv htc2 htv2
    simp [detectAlias, htc, htv, strTruthy, htc2, htv2]
  · intro r s hexp hv hst hen hlen
    simp [detectAlias, hexp, hv, hst, hen, hlen]
  · intro r s hexp hv hst hen hlen
    simp [detectAlias, hexp, hv, hst, hen]
    omega

/-- Witness for C3: an explicit alias record (with a braced value that would
point elsewhere), a braced two-plus-segment value, and a braced single-segment
value. -/
theorem alias_detection_precedence_witness :
    detectAlias { dtype := none, dvalue := some (.prim (.str "\x7bB.X\x7d")),
                  ddesc := none, targetCollection := some "A",
                  targetVariable := some "Color/Primary" } =
      some ("A", "Color/Primary") ∧
    detectAlias { dtype := none, dvalue := some (.prim (.str "\x7bA.Color.Primary\x7d")),
                  ddesc := none } = some ("A", "Color/Primary") ∧
    detectAlias { dtype := none, dvalue := some (.prim (.str "\x7bJustOne\x7d")),
                  ddesc := none } = none := by
  refine ⟨alias_detection_precedence.1 _ "A" "Color/Primary" rfl rfl (by decide) (by decide),
    ?_, ?_⟩
  · rw [alias_detection_precedence.2.1 _ "\x7bA.Color.Primary\x7d" (by decide) rfl
      (by decide) (by decide) (by decide)]
    decide
  · exact alias_detection_precedence.2.2 _ "\x7bJustOne\x7d" (by decide) rfl
      (by decide) (by decide) (by decide)

/-! ## C4: alias resolution, exact match before fuzzy fallback -/

/-- C4: alias resolution first looks for a collection with the target name and
a variable of the target name scoped to that collection's id; on success that
variable is returned with no warning (the fuzzy fallback is never taken).
Only when the exact lookup fails is the whole variable namespace searched by
name alone, returning the first match and emitting the fuzzy warning that
names the expected and the found collection. -/
theorem alias_resolution_exact_then_fuzzy :
    (∀ (h : Host) (tc tv : String) (col : VCollection) (v : HVariable),
        h.collections.find? (fun c => c.name == tc) = some col →
        h.vars.find? (fun w => w.name == tv && w.variableCollectionId == col.id) = some v →
        resolveAliasTarget h tc tv = (some v, [])) ∧
    (∀ (h : Host) (tc tv : String) (v : HVariable),
        (match h.collections.find? (fun c => c.name == tc) with
         | some col => h.vars.find? (fun w => w.name == tv && w.variableCollectionId == col.id)
         | none => none) = none →
        h.vars.find? (fun w => w.name == tv) = some v →
        resolveAliasTarget h tc tv =
          (some v, [.warn (fuzzyMsg tv tc
            (((h.collections.find? (fun c => c.id == v.variableCollectionId)).map
                (fun c => c.name)).getD "undefined"))])) := by
  constructor
  · intro h tc tv col v hcol hvar
    simp [resolveAliasTarget, hcol, hvar]
  · intro h tc tv v hno hfz
    simp only [resolveAliasTarget, hno, hfz]

/-- Witness for C4: two variables named `Color/Primary` in distinct
collections `A` and `B`; the alias `{A.Color.Primary}` resolves to the one in
`A` with no warning even though the name-only search would find the one in `B`
first; with a nonexistent collection `Z` the fuzzy fallback returns the first
name match (the one in `B`) and warns. -/
theorem alias_resolution_exact_then_fuzzy_witness :
    resolveAliasTarget
      ⟨[⟨0, "A", []⟩, ⟨1, "B", []⟩],
       [⟨11, "Color/Primary", 1, .COLOR, []⟩, ⟨10, "Color/Primary", 0, .COLOR, []⟩], 12⟩
      "A" "Color/Primary" = (some ⟨10, "Color/Primary", 0, .COLOR, []⟩, []) ∧
    resolveAliasTarget
      ⟨[⟨0, "A", []⟩, ⟨1, "B", []⟩],
       [⟨11, "Color/Primary", 1, .COLOR, []⟩, ⟨10, "Color/Primary", 0, .COLOR, []⟩], 12⟩
      "Z" "Color/Primary" =
      (some ⟨11, "Color/Primary", 1, .COLOR, []⟩,
       [.warn (fuzzyMsg "Color/Primary" "Z" "B")]) := by
  constructor
  · exact alias_resolution_exact_then_fuzzy.1 _ "A" "Color/Primary"
      ⟨0, "A", []⟩ ⟨10, "Color/Primary", 0, .COLOR, []⟩ (by decide) (by decide)
  · rw [alias_resolution_exact_then_fuzzy.2 _ "Z" "Color/Primary"
      ⟨11, "Color/Primary", 1, .COLOR, []⟩ (by decide) (by decide)]
    decide

/-! ## Termination of a well-formed import -/

/-- Pass 2's type selection succeeds on every benign type tag, and produces
exactly the type tag's mapping (`STRING` when absent or not a string; the
truthiness test of the source coincides because `mapJsonTypeToFigmaType ""`
is `STRING`). -/
theorem pass2Type_ok (d : Option JNode) (hd : okTypeTag d = true) :
    pass2Type d = .ok (specPass2Type d) := by
  cases d with
  | none => rfl
  | some n =>
    cases n with
    | prim v =>
      cases v with
      | str s =>
        by_cases hs : s = ""
        · subst hs; rfl
        · have ht : JNode.truthy (.prim (.str s)) = true := by
            simp [JNode.truthy, JSValue.truthy, hs]
          simp [pass2Type, specPass2Type, ht]
      | num q =>
        simp only [okTypeTag, Bool.not_eq_true'] at hd
        simp [pass2Type, specPass2Type, JNode.truthy, hd]
      | jbool b =>
        simp only [okTypeTag, Bool.not_eq_true'] at hd
        simp [pass2Type, specPass2Type, JNode.truthy, hd]
      | jnull => rfl
      | undef => rfl
      | aliasV i =>
        simp only [okTypeTag, JSValue.truthy] at hd
        exact absurd hd (by decide)
    | obj fields =>
      simp only [okTypeTag] at hd
      exact absurd hd (by decide)
    | arr elems =>
      simp only [okTypeTag] at hd
      exact absurd hd (by decide)

/-- Pass 2's inner loop never throws when every record's type tag is benign. -/
theorem pass2Vars_ok (cid total : Nat) :
    ∀ (recs : List (String × TokenRecord)) (h : Host) (i : Nat) (logs : List LogEvent),
      (∀ r ∈ recs, okTypeTag r.2.dtype = true) →
      ∃ h2 logs2, pass2Vars h cid total i logs recs = .ok (h2, logs2)
  | [], h, i, logs, _ => ⟨h, logs, rfl⟩
  | (varName, varData) :: rest, h, i, logs, hwf => by
    simp only [pass2Vars]
    cases hfind : findVariable h varName cid with
    | some v =>
      simp only [hfind]
      exact pass2Vars_ok cid total rest h (i + 1) _
        (fun r hr => hwf r (List.mem_cons_of_mem _ hr))
    | none =>
      simp only [hfind]
      rw [pass2Type_ok varData.dtype (hwf _ (List.mem_cons_self _ _))]
      exact pass2Vars_ok cid total rest _ (i + 1) _
        (fun r hr => hwf r (List.mem_cons_of_mem _ hr))

/-- Pass 2 returns successfully on every well-formed document. -/
theorem pass2_ok :
    ∀ (data : Doc) (h : Host) (cmap : List (String × Nat)) (lgflag : Bool)
      (logs : List LogEvent), wfDoc data = true →
      ∃ h2 lg2 logs2, pass2 h cmap lgflag logs data = .ok (h2, lg2, logs2)
  | [], h, cmap, lgflag, logs, _ => ⟨h, lgflag, logs, rfl⟩
  | (cn, modes) :: rest, h, cmap, lgflag, logs, hwf => by
    have hcons := List.all_eq_true.mp hwf
    have hwf1 : wfCollection modes = true := hcons (cn, modes) (List.mem_cons_self _ _)
    have hwfr : wfDoc rest = true :=
      List.all_eq_true.mpr (fun x hx => hcons x (List.mem_cons_of_mem _ hx))
    simp only [pass2]
    cases hlook : lookupStr cmap cn with
    | none =>
      simp only [hlook]
      exact pass2_ok rest h cmap lgflag logs hwfr
    | some cid =>
      simp only [hlook]
      cases modes with
      | nil => exact absurd hwf1 (by simp [wfCollection])
      | cons m0 ms =>
        have hall : ((flattenVariables m0.2 "" false).1.all
            (fun r => okTypeTag r.2.dtype)) = true := hwf1
        have hrec : ∀ r ∈ (flattenVariables m0.2 "" lgflag).1, okTypeTag r.2.dtype = true := by
          intro r hr
          have hfst : (flattenVariables m0.2 "" lgflag).1 =
              (flattenVariables m0.2 "" false).1 := by
            simp only [flattenVariables]
            exact flattenGo_fst_flag "" [] lgflag false m0.2
          rw [hfst] at hr
          exact List.all_eq_true.mp hall r hr
        obtain ⟨h2, logs2, hv⟩ :=
          pass2Vars_ok cid (flattenVariables m0.2 "" lgflag).1.length
            (flattenVariables m0.2 "" lgflag).1 h 0 logs hrec
        simp only
        rw [hv]
        exact pass2_ok rest h2 cmap (flattenVariables m0.2 "" lgflag).2 logs2 hwfr

/-- A well-formed import reaches the final success report. -/
theorem runImport_ok_shape (data : Doc) (h : Host) (hwf : wfDoc data = true) :
    ∃ h3 lg3 logs3, runImport data h =
      { host := h3, logs := logs3 ++ [.info "Import completed successfully."],
        legacy := lg3, success := true } := by
  obtain ⟨h2, lg2, logs2, hp2⟩ := pass2_ok data
    (pass1Go h [] [] [.info "Starting import..."] data).1
    (pass1Go h [] [] [.info "Starting import..."] data).2.1 false
    (pass1Go h [] [] [.info "Starting import..."] data).2.2.2 hwf
  simp only [runImport]
  rw [hp2]
  exact ⟨_, _, _, rfl⟩

/-! ## C5: unresolved alias -/

/-- C5: when a detected alias is matched by neither the exact nor the fuzzy
resolution step, Pass 3 emits exactly one WARN naming the unresolved target
and changes nothing in the host (the variable's value for that mode is left
unmodified); and a well-formed import still runs to completion, reporting
overall success as its final event. -/
theorem unresolved_alias_warn_and_noop :
    (∀ (h : Host) (cid modeId : Nat) (varName : String) (varData : TokenRecord)
        (vrb : HVariable) (tc tv : String),
        findVariable h varName cid = some vrb →
        detectAlias varData = some (tc, tv) →
        resolveAliasTarget h tc tv = (none, []) →
        processValue h cid modeId varName varData = (h, [.warn (aliasNotFoundMsg tv tc)])) ∧
    (∀ (data : Doc) (h : Host), wfDoc data = true →
        (runImport data h).success = true ∧
        (runImport data h).logs.getLast? = some (.info "Import completed successfully.")) := by
  constructor
  · intro h cid modeId varName varData vrb tc tv hfind hdet hres
    simp [processValue, hfind, hdet, hres]
  · intro data h hwf
    obtain ⟨h3, lg3, logs3, heq⟩ := runImport_ok_shape data h hwf
    rw [heq]
    exact ⟨rfl, List.getLast?_concat _⟩

/-- Witness for C5: a host with one STRING variable `x`; the token
`{Nonexistent.Path}` matches nothing, so processing it yields exactly the one
WARN and leaves the host untouched; a small well-formed document imports with
success. -/
theorem unresolved_alias_warn_and_noop_witness :
    processValue ⟨[⟨0, "C", [⟨1, "M"⟩]⟩], [⟨2, "x", 0, .STRING, []⟩], 3⟩ 0 1 "x"
        { dtype := some (.prim (.str "string")),
          dvalue := some (.prim (.str "\x7bNonexistent.Path\x7d")), ddesc := none } =
      (⟨[⟨0, "C", [⟨1, "M"⟩]⟩], [⟨2, "x", 0, .STRING, []⟩], 3⟩,
       [.warn (aliasNotFoundMsg "Path" "Nonexistent")]) ∧
    (runImport [("C", [("M", JFields.ofList [("x", .obj (JFields.ofList
        [("$type", .prim (.str "string")),
         ("$value", .prim (.str "\x7bNonexistent.Path\x7d"))]))])])] emptyHost).success =
      true := by
  constructor
  · exact unresolved_alias_warn_and_noop.1 _ 0 1 "x" _ ⟨2, "x", 0, .STRING, []⟩
      "Nonexistent" "Path" (by decide) (by decide) (by decide)
  · exact (unresolved_alias_warn_and_noop.2 _ emptyHost (by decide)).1

/-! ## C8: FLOAT and BOOLEAN string coercion -/

/-- C8 (actual code behavior): for a FLOAT variable, a string that parses as a
decimal number is replaced by the parsed number and a string that fails to
parse is passed through unchanged.  For a BOOLEAN variable the source's two
consecutive `if` statements make any string whose lowercase form is `"true"`
throw a `TypeError` (the first `if` replaces the value by the boolean `true`,
the second then calls `.toLowerCase()` on it); `"false"` strings do coerce to
the boolean `false`, and any other string passes through unchanged.  At the
failing input — a BOOLEAN variable whose mode value is the string `"true"` —
the per-item catch logs an ERROR and the variable's value is never set, while
a `"false"` value is set normally. -/
theorem float_and_boolean_string_coercion :
    (∀ s : String, coerceValue .FLOAT (some (.prim (.str s))) =
        .ok (some (match jsParseFloat s with
                   | some q => .prim (.num q)
                   | none => .prim (.str s)))) ∧
    (∀ s : String, coerceValue .BOOLEAN (some (.prim (.str s))) =
        (if jsToLower s == "true" then
          .error "TypeError: valueToSet.toLowerCase is not a function"
        else .ok (some (if jsToLower s == "false" then .prim (.jbool false)
          else .prim (.str s))))) ∧
    processValue ⟨[⟨0, "C", [⟨1, "M"⟩]⟩], [⟨2, "b", 0, .BOOLEAN, []⟩], 3⟩ 0 1 "b"
        { dtype := some (.prim (.str "boolean")),
          dvalue := some (.prim (.str "true")), ddesc := none } =
      (⟨[⟨0, "C", [⟨1, "M"⟩]⟩], [⟨2, "b", 0, .BOOLEAN, []⟩], 3⟩,
       [.error "Error setting value for \"b\": TypeError: valueToSet.toLowerCase is not a function"]) ∧
    processValue ⟨[⟨0, "C", [⟨1, "M"⟩]⟩], [⟨2, "b", 0, .BOOLEAN, []⟩], 3⟩ 0 1 "b"
        { dtype := some (.prim (.str "boolean")),
          dvalue := some (.prim (.str "false")), ddesc := none } =
      (⟨[⟨0, "C", [⟨1, "M"⟩]⟩], [⟨2, "b", 0, .BOOLEAN, [(1, .prim (.jbool false))]⟩], 3⟩,
       []) := by
  refine ⟨?_, ?_, rfl, rfl⟩
  · intro s
    simp only [coerceValue]
    cases hp : jsParseFloat s <;> simp [hp]
  · intro s
    simp only [coerceValue]
    by_cases ht : jsToLower s == "true"
    · simp [ht]
    · simp only [ht]
      by_cases hf : jsToLower s == "false" <;> simp [ht, hf]

/-! ## C2: dialect equivalence -/

/-- Flattening a singleton legacy leaf: the record is normalized to the DTCG
field names and the legacy flag is raised (for a non-skipped key, non-empty
type tag and non-empty description). -/
theorem flatten_legacy_leaf (p t : String) (v : JNode) (d : String) (lg : Bool)
    (hp1 : jsStartsWith p "_" = false) (hp2 : jsStartsWith p "$" = false)
    (ht : t ≠ "") (hd : d ≠ "") :
    flattenVariables (.fcons p (.obj (legacyLeafFields t v d)) .nil) "" lg =
      ([(p, normRecord t v d)], true) := by
  simp [flattenVariables, flattenGo, hp1, hp2, legacyLeafFields, isVariableFields,
    isLegacyFields, hasField, normalizeFields, getField, jsOr, Option.orElse, mapSet,
    normRecord, JNode.truthy, JSValue.truthy, ht, hd]

/-- Flattening a singleton DTCG leaf: the same normalized record, and the
legacy flag is not raised. -/
theorem flatten_dtcg_leaf (p t : String) (v : JNode) (d : String) (lg : Bool)
    (hp1 : jsStartsWith p "_" = false) (hp2 : jsStartsWith p "$" = false)
    (ht : t ≠ "") (hd : d ≠ "") :
    flattenVariables (.fcons p (.obj (dtcgLeafFields t v d)) .nil) "" lg =
      ([(p, normRecord t v d)], lg) := by
  simp [flattenVariables, flattenGo, hp1, hp2, dtcgLeafFields, isVariableFields,
    isLegacyFields, hasField, normalizeFields, getField, jsOr, Option.orElse, mapSet,
    normRecord, JNode.truthy, JSValue.truthy, ht, hd]

/-- Reshuffling a trailing singleton under `dropLast` (used for the log-suffix
comparison between the two dialect runs). -/
theorem dropLast_concat_swap {α : Type} (x w b : α) (A : List α) :
    (x :: (A ++ [b])).dropLast ++ [w, b] = x :: (A ++ [w, b]) := by
  have h1 : x :: (A ++ [b]) = (x :: A) ++ [b] := rfl
  rw [h1, List.dropLast_concat]
  rfl

/-- C2 counterexample: with an empty-string description the two dialect forms
do NOT normalize to identical records: the legacy form keeps
`$description = ""` while the DTCG form's `"" || undefined` collapses to
absent. -/
theorem dialect_records_differ_on_empty_description :
    (flattenVariables
        (.fcons "a" (.obj (legacyLeafFields "color" (.prim (.str "#AABBCC")) "")) .nil)
        "" false).1 ≠
      (flattenVariables
        (.fcons "a" (.obj (dtcgLeafFields "color" (.prim (.str "#AABBCC")) "")) .nil)
        "" false).1 := by
  decide

/-- C2 (amended): for a leaf at a group key not starting with `_` or `$`,
with a non-empty type tag and a non-empty description, the legacy form
`{type, value, description}` and the DTCG form `{$type, $value, $description}`
flatten to identical normalized records, and importing the two singleton
documents yields identical host states; the runs differ only in the sticky
legacy flag and the one end-of-import migration warning (inserted before the
final success message).  (The non-emptiness provisos are forced by the
counterexample: an empty-string description or type tag normalizes to `""`
under the legacy tags but to an absent field under the DTCG tags.) -/
theorem dialect_equivalence (p t : String) (v : JNode) (d : String)
    (hp1 : jsStartsWith p "_" = false) (hp2 : jsStartsWith p "$" = false)
    (ht : t ≠ "") (hd : d ≠ "") :
    (flattenVariables (.fcons p (.obj (legacyLeafFields t v d)) .nil) "" false).1 =
      [(p, normRecord t v d)] ∧
    (flattenVariables (.fcons p (.obj (dtcgLeafFields t v d)) .nil) "" false).1 =
      [(p, normRecord t v d)] ∧
    (flattenVariables (.fcons p (.obj (legacyLeafFields t v d)) .nil) "" false).2 = true ∧
    (flattenVariables (.fcons p (.obj (dtcgLeafFields t v d)) .nil) "" false).2 = false ∧
    (runImport (dialectDoc p (legacyLeafFields t v d)) emptyHost).host =
      (runImport (dialectDoc p (dtcgLeafFields t v d)) emptyHost).host ∧
    (runImport (dialectDoc p (legacyLeafFields t v d)) emptyHost).legacy = true ∧
    (runImport (dialectDoc p (dtcgLeafFields t v d)) emptyHost).legacy = false ∧
    (runImport (dialectDoc p (legacyLeafFields t v d)) emptyHost).success = true ∧
    (runImport (dialectDoc p (dtcgLeafFields t v d)) emptyHost).success = true ∧
    (runImport (dialectDoc p (legacyLeafFields t v d)) emptyHost).logs =
      (runImport (dialectDoc p (dtcgLeafFields t v d)) emptyHost).logs.dropLast ++
        [.warn legacyWarning, .info "Import completed successfully."] := by
  have hL0 := flatten_legacy_leaf p t v d false hp1 hp2 ht hd
  have hL1 := flatten_legacy_leaf p t v d true hp1 hp2 ht hd
  have hD0 := flatten_dtcg_leaf p t v d false hp1 hp2 ht hd
  refine ⟨?_, ?_, ?_, ?_, ?_, ?_, ?_, ?_, ?_, ?_⟩ <;>
    simp [runImport, dialectDoc, pass1Go, pass2, pass3, pass3Modes, pass3Vars,
      pass2Vars, modeLoop, findCollectionByName, emptyHost, createVariableCollection,
      addMode, renameMode, createVariable, findVariable, pass2Type,
      List.find?, List.map, mapSet, lookupStr, JNode.truthy, JSValue.truthy, ht,
      normRecord, dropLast_concat_swap, hL0, hL1, hD0]

/-- Witness for C2 (amended): the spec's own example pair
`{type: "color", value: "#AABBCC", description: "desc"}` versus
`{$type: "color", $value: "#AABBCC", $description: "desc"}` at path `a`. -/
theorem dialect_equivalence_witness :
    (flattenVariables
        (.fcons "a" (.obj (legacyLeafFields "color" (.prim (.str "#AABBCC")) "desc")) .nil)
        "" false).1 =
      [("a", normRecord "color" (.prim (.str "#AABBCC")) "desc")] ∧
    (flattenVariables
        (.fcons "a" (.obj (dtcgLeafFields "color" (.prim (.str "#AABBCC")) "desc")) .nil)
        "" false).1 =
      [("a", normRecord "color" (.prim (.str "#AABBCC")) "desc")] ∧
    (flattenVariables
        (.fcons "a" (.obj (legacyLeafFields "color" (.prim (.str "#AABBCC")) "desc")) .nil)
        "" false).2 = true ∧
    (flattenVariables
        (.fcons "a" (.obj (dtcgLeafFields "color" (.prim (.str "#AABBCC")) "desc")) .nil)
        "" false).2 = false ∧
    (runImport (dialectDoc "a" (legacyLeafFields "color" (.prim (.str "#AABBCC")) "desc"))
        emptyHost).host =
      (runImport (dialectDoc "a" (dtcgLeafFields "color" (.prim (.str "#AABBCC")) "desc"))
        emptyHost).host ∧
    (runImport (dialectDoc "a" (legacyLeafFields "color" (.prim (.str "#AABBCC")) "desc"))
        emptyHost).legacy = true ∧
    (runImport (dialectDoc "a" (dtcgLeafFields "color" (.prim (.str "#AABBCC")) "desc"))
        emptyHost).legacy = false ∧
    (runImport (dialectDoc "a" (legacyLeafFields "color" (.prim (.str "#AABBCC")) "desc"))
        emptyHost).success = true ∧
    (runImport (dialectDoc "a" (dtcgLeafFields "color" (.prim (.str "#AABBCC")) "desc"))
        emptyHost).success = true ∧
    (runImport (dialectDoc "a" (legacyLeafFields "color" (.prim (.str "#AABBCC")) "desc"))
        emptyHost).logs =
      (runImport (dialectDoc "a" (dtcgLeafFields "color" (.prim (.str "#AABBCC")) "desc"))
        emptyHost).logs.dropLast ++
        [.warn legacyWarning, .info "Import completed successfully."] :=
  dialect_equivalence "a" "color" (.prim (.str "#AABBCC")) "desc"
    (by decide) (by decide) (by decide) (by decide)

/-! ## C7: simplified COLOR export -/

/-- String extensionality (strings are their character lists). -/
theorem stringDataExt (s t : String) (h : s.data = t.data) : s = t := by
  cases s
  cases t
  exact congrArg String.mk h

/-- The fuel argument of `toHexGo` is irrelevant once it dominates the input. -/
theorem toHexGo_fuel : ∀ (n f f2 : Nat), n ≤ f → n ≤ f2 → toHexGo f n = toHexGo f2 n
  | 0, f, f2, _, _ => by cases f <;> cases f2 <;> rfl
  | n + 1, 0, _, h1, _ => absurd h1 (by omega)
  | _ + 1, _ + 1, 0, _, h2 => absurd h2 (by omega)
  | n + 1, f + 1, f2 + 1, h1, h2 => by
    simp only [toHexGo]
    rw [toHexGo_fuel ((n + 1) / 16) f f2 (by omega) (by omega)]
  termination_by n _ _ _ _ => n
  decreasing_by omega

/-- The recursive unfolding of the hex expansion. -/
theorem toHexAux_eq (n : Nat) (h : n ≠ 0) :
    toHexAux n = toHexAux (n / 16) ++ [hexDigitChar (n % 16)] := by
  cases n with
  | zero => exact absurd rfl h
  | succ m =>
    show toHexGo (m + 1) (m + 1) =
      toHexGo ((m + 1) / 16) ((m + 1) / 16) ++ [hexDigitChar ((m + 1) % 16)]
    simp only [toHexGo]
    rw [toHexGo_fuel ((m + 1) / 16) m ((m + 1) / 16) (by omega) (le_refl _)]

/-- Hex expansion of `2^24 + a*2^16 + b*2^8 + c` for bytes `a`, `b`, `c`: a
leading `1` followed by the six hex digits of the three bytes. -/
theorem toHexAux_decomp (a b c : Nat) (ha : a < 256) (hb : b < 256) (hc : c < 256) :
    toHexAux (16777216 + a * 65536 + b * 256 + c) =
      ['1', hexDigitChar (a / 16), hexDigitChar (a % 16), hexDigitChar (b / 16),
       hexDigitChar (b % 16), hexDigitChar (c / 16), hexDigitChar (c % 16)] := by
  have e1 : (16777216 + a * 65536 + b * 256 + c) % 16 = c % 16 := by omega
  have d1 : (16777216 + a * 65536 + b * 256 + c) / 16 =
      1048576 + a * 4096 + b * 16 + c / 16 := by omega
  have e2 : (1048576 + a * 4096 + b * 16 + c / 16) % 16 = c / 16 := by omega
  have d2 : (1048576 + a * 4096 + b * 16 + c / 16) / 16 = 65536 + a * 256 + b := by omega
  have e3 : (65536 + a * 256 + b) % 16 = b % 16 := by omega
  have d3 : (65536 + a * 256 + b) / 16 = 4096 + a * 16 + b / 16 := by omega
  have e4 : (4096 + a * 16 + b / 16) % 16 = b / 16 := by omega
  have d4 : (4096 + a * 16 + b / 16) / 16 = 256 + a := by omega
  have e5 : (256 + a) % 16 = a % 16 := by omega
  have d5 : (256 + a) / 16 = 16 + a / 16 := by omega
  have e6 : (16 + a / 16) % 16 = a / 16 := by omega
  have d6 : (16 + a / 16) / 16 = 1 := by omega
  rw [toHexAux_eq _ (by omega), e1, d1, toHexAux_eq _ (by omega), e2, d2,
    toHexAux_eq _ (by omega), e3, d3, toHexAux_eq _ (by omega), e4, d4,
    toHexAux_eq _ (by omega), e5, d5, toHexAux_eq _ (by omega), e6, d6]
  have h1 : toHexAux 1 = ['1'] := by decide
  rw [h1]
  rfl

/-- `Math.round` of a channel scaled to 0-255 stays in the byte range. -/
theorem jsRound_byte (q : ℚ) (h0 : 0 ≤ q) (h1 : q ≤ 1) :
    0 ≤ jsRound (q * 255) ∧ jsRound (q * 255) ≤ 255 := by
  unfold jsRound
  constructor
  · refine Int.le_floor.mpr ?_
    push_cast
    nlinarith
  · have hlt : q * 255 + 1 / 2 < 256 := by nlinarith
    exact Int.lt_add_one_iff.mp (Int.floor_lt.mpr (by push_cast; linarith))

/-- `rgbToHex` on channels in the 0-1 range is the concatenation of the three
channels' two-digit uppercase hex renderings, each channel rounded to the
nearest integer in 0-255. -/
theorem rgbToHex_spec (r g b : ℚ) (hr0 : 0 ≤ r) (hr1 : r ≤ 1) (hg0 : 0 ≤ g) (hg1 : g ≤ 1)
    (hb0 : 0 ≤ b) (hb1 : b ≤ 1) :
    rgbToHex r g b =
      hexByteU (jsRound (r * 255)).toNat ++ hexByteU (jsRound (g * 255)).toNat ++
        hexByteU (jsRound (b * 255)).toNat := by
  obtain ⟨hrl, hru⟩ := jsRound_byte r hr0 hr1
  obtain ⟨hgl, hgu⟩ := jsRound_byte g hg0 hg1
  obtain ⟨hbl, hbu⟩ := jsRound_byte b hb0 hb1
  have hn : (2 ^ 24 + jsRound (r * 255) * 2 ^ 16 + jsRound (g * 255) * 2 ^ 8 +
      jsRound (b * 255)).toNat =
      16777216 + (jsRound (r * 255)).toNat * 65536 + (jsRound (g * 255)).toNat * 256 +
        (jsRound (b * 255)).toNat := by omega
  simp only [rgbToHex]
  rw [hn, jsToString16, if_neg (by omega)]
  rw [toHexAux_decomp _ _ _ (by omega) (by omega) (by omega)]
  apply stringDataExt
  simp [jsToUpper, hexByteU]

/-- Every character of a two-digit hex byte rendering is an uppercase hex digit. -/
theorem hexByteU_chars (n : Nat) (h : n < 256) :
    ∀ c ∈ (hexByteU n).data, isUpperHexDigit c = true := by
  have key : ∀ m, m < 16 → isUpperHexDigit (charUpper (hexDigitChar m)) = true := by decide
  intro c hc
  simp only [hexByteU, List.mem_cons, List.not_mem_nil, or_false] at hc
  rcases hc with rfl | rfl
  · exact key _ (by omega)
  · exact key _ (by omega)

/-- C7: a COLOR variable whose per-mode value is a scalar color object with
channels in the 0-1 range is rendered by the simplified export as `#` followed
by exactly six uppercase hexadecimal digits, each channel rounded to the
nearest integer in 0-255, with no alpha channel emitted (the output has
exactly seven characters); in particular `r=1, g=0, b=0` renders as
`"#FF0000"`. -/
theorem simplified_color_export_hex :
    (∀ (r g b : ℚ) (rest : JFields), 0 ≤ r → r ≤ 1 → 0 ≤ g → g ≤ 1 → 0 ≤ b → b ≤ 1 →
      hasField rest "type" = false →
      convertValueForFormat
          (.obj (.fcons "r" (.prim (.num r)) (.fcons "g" (.prim (.num g))
            (.fcons "b" (.prim (.num b)) rest)))) .COLOR .simplified =
        some (.prim (.str ("#" ++ (hexByteU (jsRound (r * 255)).toNat ++
          hexByteU (jsRound (g * 255)).toNat ++ hexByteU (jsRound (b * 255)).toNat)))) ∧
      ("#" ++ (hexByteU (jsRound (r * 255)).toNat ++ hexByteU (jsRound (g * 255)).toNat ++
          hexByteU (jsRound (b * 255)).toNat)).data.length = 7 ∧
      (∀ c ∈ ("#" ++ (hexByteU (jsRound (r * 255)).toNat ++
          hexByteU (jsRound (g * 255)).toNat ++
          hexByteU (jsRound (b * 255)).toNat)).data.tail, isUpperHexDigit c = true)) ∧
    convertValueForFormat
        (.obj (.fcons "r" (.prim (.num 1)) (.fcons "g" (.prim (.num 0))
          (.fcons "b" (.prim (.num 0)) .nil)))) .COLOR .simplified =
      some (.prim (.str "#FF0000")) := by
  constructor
  · intro r g b rest hr0 hr1 hg0 hg1 hb0 hb1 hrest
    obtain ⟨hrl, hru⟩ := jsRound_byte r hr0 hr1
    obtain ⟨hgl, hgu⟩ := jsRound_byte g hg0 hg1
    obtain ⟨hbl, hbu⟩ := jsRound_byte b hb0 hb1
    refine ⟨?_, ?_, ?_⟩
    · simp [convertValueForFormat, isVariableAliasValue, hasField, hrest, objWithR,
        getField, numOr0,
        rgbToHex_spec r g b hr0 hr1 hg0 hg1 hb0 hb1]
    · simp [hexByteU]
    · have hdata : ("#" ++ (hexByteU (jsRound (r * 255)).toNat ++
          hexByteU (jsRound (g * 255)).toNat ++ hexByteU (jsRound (b * 255)).toNat)).data =
          '#' :: ((hexByteU (jsRound (r * 255)).toNat).data ++
            (hexByteU (jsRound (g * 255)).toNat).data ++
            (hexByteU (jsRound (b * 255)).toNat).data) := by
        simp
      rw [hdata]
      intro c hc
      simp only [List.tail_cons, List.mem_append] at hc
      rcases hc with (hc | hc) | hc
      · exact hexByteU_chars _ (by omega) c hc
      · exact hexByteU_chars _ (by omega) c hc
      · exact hexByteU_chars _ (by omega) c hc
  · have h1 : jsRound (255 : ℚ) = 255 := by norm_num [jsRound]
    have h0 : jsRound (0 : ℚ) = 0 := by norm_num [jsRound]
    have hfs := (by decide : hexByteU 255 = "FF" ∧ hexByteU 0 = "00")
    simp [convertValueForFormat, isVariableAliasValue, hasField, objWithR, getField, numOr0,
      rgbToHex_spec 1 0 0 (by norm_num) (by norm_num) (by norm_num) (by norm_num)
        (by norm_num) (by norm_num), h1, h0, hfs.1, hfs.2]

/-- Witness for C7: the channel triple `(1/2, 0, 1)` on a bare `{r, g, b}`
object. -/
theorem simplified_color_export_hex_witness :
    convertValueForFormat
        (.obj (.fcons "r" (.prim (.num (1 / 2))) (.fcons "g" (.prim (.num 0))
          (.fcons "b" (.prim (.num 1)) .nil)))) .COLOR .simplified =
      some (.prim (.str ("#" ++ (hexByteU (jsRound ((1 / 2 : ℚ) * 255)).toNat ++
        hexByteU (jsRound ((0 : ℚ) * 255)).toNat ++
        hexByteU (jsRound ((1 : ℚ) * 255)).toNat)))) ∧
    ("#" ++ (hexByteU (jsRound ((1 / 2 : ℚ) * 255)).toNat ++
        hexByteU (jsRound ((0 : ℚ) * 255)).toNat ++
        hexByteU (jsRound ((1 : ℚ) * 255)).toNat)).data.length = 7 ∧
    (∀ c ∈ ("#" ++ (hexByteU (jsRound ((1 / 2 : ℚ) * 255)).toNat ++
        hexByteU (jsRound ((0 : ℚ) * 255)).toNat ++
        hexByteU (jsRound ((1 : ℚ) * 255)).toNat)).data.tail, isUpperHexDigit c = true) :=
  simplified_color_export_hex.1 (1 / 2) 0 1 .nil (by norm_num) (by norm_num) (by norm_num)
    (by norm_num) (by norm_num) (by norm_num) rfl

/-! ## C9: Tailwind FLOAT keyword routing -/

/-- C9: in the Tailwind export every FLOAT variable is routed by
case-insensitive substring matching on its name, in the source's first-match
order: the spacing keywords (`spacing`, `space`, `gap`, `margin`, `padding`)
route to `spacing`; otherwise `font` together with `size` routes to
`fontSize`; otherwise `radius` or `rounded` routes to `borderRadius`; a FLOAT
matching no keyword defaults to `spacing`.  Every routed value is the
stringified value suffixed with `"px"`.  The last conjunct shows that a
collection contributes its variables' values at its first mode only. -/
theorem tailwind_float_keyword_routing :
    (∀ (h : Host) (theme : TailwindTheme) (vrb : HVariable) (modeId : Nat),
      vrb.resolvedType = .FLOAT →
      (strIncludes (jsToLower vrb.name) "spacing" || strIncludes (jsToLower vrb.name) "space" ||
        strIncludes (jsToLower vrb.name) "gap" || strIncludes (jsToLower vrb.name) "margin" ||
        strIncludes (jsToLower vrb.name) "padding") = true →
      tailwindStep h theme vrb modeId =
        { theme with spacing := (mapSet theme.spacing
            (jsToLower (String.intercalate "-" (jsSplit vrb.name '/')))
            (.prim (.str (jsDisplay ((getAssoc vrb.valuesByMode modeId).getD (.prim .undef))
              ++ "px")))) }) ∧
    (∀ (h : Host) (theme : TailwindTheme) (vrb : HVariable) (modeId : Nat),
      vrb.resolvedType = .FLOAT →
      (strIncludes (jsToLower vrb.name) "spacing" || strIncludes (jsToLower vrb.name) "space" ||
        strIncludes (jsToLower vrb.name) "gap" || strIncludes (jsToLower vrb.name) "margin" ||
        strIncludes (jsToLower vrb.name) "padding") = false →
      (strIncludes (jsToLower vrb.name) "font" && strIncludes (jsToLower vrb.name) "size") = true →
      tailwindStep h theme vrb modeId =
        { theme with fontSize := (mapSet theme.fontSize
            (jsToLower (String.intercalate "-" (jsSplit vrb.name '/')))
            (.prim (.str (jsDisplay ((getAssoc vrb.valuesByMode modeId).getD (.prim .undef))
              ++ "px")))) }) ∧
    (∀ (h : Host) (theme : TailwindTheme) (vrb : HVariable) (modeId : Nat),
      vrb.resolvedType = .FLOAT →
      (strIncludes (jsToLower vrb.name) "spacing" || strIncludes (jsToLower vrb.name) "space" ||
        strIncludes (jsToLower vrb.name) "gap" || strIncludes (jsToLower vrb.name) "margin" ||
        strIncludes (jsToLower vrb.name) "padding") = false →
      (strIncludes (jsToLower vrb.name) "font" && strIncludes (jsToLower vrb.name) "size") = false →
      (strIncludes (jsToLower vrb.name) "radius" || strIncludes (jsToLower vrb.name) "rounded") = true →
      tailwindStep h theme vrb modeId =
        { theme with borderRadius := (mapSet theme.borderRadius
            (jsToLower (String.intercalate "-" (jsSplit vrb.name '/')))
            (.prim (.str (jsDisplay ((getAssoc vrb.valuesByMode modeId).getD (.prim .undef))
              ++ "px")))) }) ∧
    (∀ (h : Host) (theme : TailwindTheme) (vrb : HVariable) (modeId : Nat),
      vrb.resolvedType = .FLOAT →
      (strIncludes (jsToLower vrb.name) "spacing" || strIncludes (jsToLower vrb.name) "space" ||
        strIncludes (jsToLower vrb.name) "gap" || strIncludes (jsToLower vrb.name) "margin" ||
        strIncludes (jsToLower vrb.name) "padding") = false →
      (strIncludes (jsToLower vrb.name) "font" && strIncludes (jsToLower vrb.name) "size") = false →
      (strIncludes (jsToLower vrb.name) "radius" || strIncludes (jsToLower vrb.name) "rounded") = false →
      tailwindStep h theme vrb modeId =
        { theme with spacing := (mapSet theme.spacing
            (jsToLower (String.intercalate "-" (jsSplit vrb.name '/')))
            (.prim (.str (jsDisplay ((getAssoc vrb.valuesByMode modeId).getD (.prim .undef))
              ++ "px")))) }) ∧
    (∀ (cid vid nid : Nat) (cname nm : String) (m0 : VarMode) (ms : List VarMode)
      (vals : List (Nat × JNode)),
      exportAsTailwind ⟨[⟨cid, cname, m0 :: ms⟩], [⟨vid, nm, cid, .FLOAT, vals⟩], nid⟩ =
        tailwindStep ⟨[⟨cid, cname, m0 :: ms⟩], [⟨vid, nm, cid, .FLOAT, vals⟩], nid⟩ {}
          ⟨vid, nm, cid, .FLOAT, vals⟩ m0.modeId) := by
  refine ⟨?_, ?_, ?_, ?_, ?_⟩
  · intro h theme vrb modeId htype hkw
    simp only [tailwindStep, htype]
    simp [Bool.or_eq_true] at hkw
    rcases hkw with ((((hk | hk) | hk) | hk) | hk) <;> simp [hk]
  · intro h theme vrb modeId htype hkw hfs
    simp only [tailwindStep, htype]
    simp [Bool.or_eq_true] at hkw
    simp [hkw, hfs]
  · intro h theme vrb modeId htype hkw hfs hrad
    simp only [tailwindStep, htype]
    simp [Bool.or_eq_true] at hkw hrad
    simp [hkw, hfs, hrad]
  · intro h theme vrb modeId htype hkw hfs hrad
    simp only [tailwindStep, htype]
    simp [Bool.or_eq_true] at hkw hrad
    simp [hkw, hfs, hrad]
  · intro cid vid nid cname nm m0 ms vals
    simp [exportAsTailwind]

/-- Witness for C9: the spec's examples `Spacing/Gap/Small` (spacing keyword),
`Radius/Button` (borderRadius keyword) and `Opacity/Disabled` (no keyword,
spacing default), against the first mode of a one-variable host. -/
theorem tailwind_float_keyword_routing_witness :
    tailwindStep ⟨[⟨0, "C", [⟨5, "M"⟩]⟩], [⟨1, "Spacing/Gap/Small", 0, .FLOAT,
        [(5, .prim (.num 16))]⟩], 2⟩ {} ⟨1, "Spacing/Gap/Small", 0, .FLOAT,
        [(5, .prim (.num 16))]⟩ 5 =
      { spacing := (mapSet ([] : List (String × JNode))
          (jsToLower (String.intercalate "-" (jsSplit "Spacing/Gap/Small" '/')))
          (.prim (.str (jsDisplay ((getAssoc [(5, .prim (.num 16))] 5).getD (.prim .undef))
            ++ "px")))) } ∧
    tailwindStep ⟨[⟨0, "C", [⟨5, "M"⟩]⟩], [⟨1, "Radius/Button", 0, .FLOAT,
        [(5, .prim (.num 16))]⟩], 2⟩ {} ⟨1, "Radius/Button", 0, .FLOAT,
        [(5, .prim (.num 16))]⟩ 5 =
      { borderRadius := (mapSet ([] : List (String × JNode))
          (jsToLower (String.intercalate "-" (jsSplit "Radius/Button" '/')))
          (.prim (.str (jsDisplay ((getAssoc [(5, .prim (.num 16))] 5).getD (.prim .undef))
            ++ "px")))) } ∧
    tailwindStep ⟨[⟨0, "C", [⟨5, "M"⟩]⟩], [⟨1, "Opacity/Disabled", 0, .FLOAT,
        [(5, .prim (.num 16))]⟩], 2⟩ {} ⟨1, "Opacity/Disabled", 0, .FLOAT,
        [(5, .prim (.num 16))]⟩ 5 =
      { spacing := (mapSet ([] : List (String × JNode))
          (jsToLower (String.intercalate "-" (jsSplit "Opacity/Disabled" '/')))
          (.prim (.str (jsDisplay ((getAssoc [(5, .prim (.num 16))] 5).getD (.prim .undef))
            ++ "px")))) } ∧
    exportAsTailwind ⟨[⟨0, "C", [⟨5, "M"⟩]⟩], [⟨1, "Opacity/Disabled", 0, .FLOAT,
        [(5, .prim (.num 16))]⟩], 2⟩ =
      tailwindStep ⟨[⟨0, "C", [⟨5, "M"⟩]⟩], [⟨1, "Opacity/Disabled", 0, .FLOAT,
        [(5, .prim (.num 16))]⟩], 2⟩ {} ⟨1, "Opacity/Disabled", 0, .FLOAT,
        [(5, .prim (.num 16))]⟩ 5 := by
  refine ⟨tailwind_float_keyword_routing.1 _ {} _ 5 rfl (by decide),
    tailwind_float_keyword_routing.2.2.1 _ {} _ 5 rfl (by decide) (by decide) (by decide),
    tailwind_float_keyword_routing.2.2.2.1 _ {} _ 5 rfl (by decide) (by decide) (by decide),
    tailwind_float_keyword_routing.2.2.2.2 0 1 2 "C" "Opacity/Disabled" ⟨5, "M"⟩ []
      [(5, .prim (.num 16))]⟩

/-! ## Pass-level state lemmas -/

/-- Pass 1's mode reconciliation never touches the variable store. -/
theorem modeLoop_vars : ∀ (names : List String) (h : Host) (cid : Nat) (cname : String)
    (snap : List VarMode) (i : Nat) (mmap : List (String × Nat)) (logs : List LogEvent),
    ((modeLoop h cid cname snap i mmap logs names).1).vars = h.vars
  | [], _, _, _, _, _, _, _ => rfl
  | mn :: rest, h, cid, cname, snap, i, mmap, logs => by
    simp only [modeLoop]
    cases hf : snap.find? (fun m => m.name == mn) with
    | some m => exact modeLoop_vars rest h cid cname snap (i + 1) (mapSet mmap mn m.modeId) logs
    | none =>
      cases hd : snap.find? (fun m => m.name == "Mode 1") with
      | some dm =>
        by_cases hi : (i == 0) = true
        · simp only [hi, if_true]
          exact modeLoop_vars rest _ cid cname snap (i + 1) _ _
        · simp only [hi, if_false]
          exact modeLoop_vars rest _ cid cname snap (i + 1) _ _
      | none =>
        exact modeLoop_vars rest _ cid cname snap (i + 1) _ _

/-- Pass 1 never touches the variable store. -/
theorem pass1Go_vars : ∀ (data : Doc) (h : Host) (cmap : List (String × Nat))
    (mmaps : List (String × List (String × Nat))) (logs : List LogEvent),
    ((pass1Go h cmap mmaps logs data).1).vars = h.vars
  | [], _, _, _, _ => rfl
  | (cn, modes) :: rest, h, cmap, mmaps, logs => by
    simp only [pass1Go]
    cases hf : findCollectionByName h cn with
    | some c =>
      simp only [hf]
      rw [pass1Go_vars rest _ _ _ _, modeLoop_vars]
    | none =>
      simp only [hf]
      rw [pass1Go_vars rest _ _ _ _, modeLoop_vars]
      rfl

/-- The host a Pass 2 outcome carries (also at a throw). -/
def pass2OutHost : Except (Host × List LogEvent × String) (Host × List LogEvent) → Host
  | .ok r => r.1
  | .error e => e.1

/-- The host a whole Pass 2 outcome carries. -/
def pass2OutHost3 : Except (Host × List LogEvent × String) (Host × Bool × List LogEvent) → Host
  | .ok r => r.1
  | .error e => e.1

/-- Provenance through Pass 2's inner loop: every variable of the resulting
host (also on the throwing path) was already present or bears one of the
processed record paths, scoped to the processed collection. -/
theorem pass2Vars_provenance : ∀ (recs : List (String × TokenRecord)) (h : Host)
    (cid total i : Nat) (logs : List LogEvent) (v : HVariable),
    v ∈ (pass2OutHost (pass2Vars h cid total i logs recs)).vars →
    v ∈ h.vars ∨ (v.name ∈ recs.map Prod.fst ∧ v.variableCollectionId = cid)
  | [], h, cid, total, i, logs, v => fun hv => .inl hv
  | (varName, varData) :: rest, h, cid, total, i, logs, v => by
    intro hv
    simp only [pass2Vars] at hv
    rcases hfind : findVariable h varName cid with _ | w
    · rw [hfind] at hv
      rcases hty : pass2Type varData.dtype with e | t
      · rw [hty] at hv
        exact .inl hv
      · rw [hty] at hv
        rcases pass2Vars_provenance rest _ cid total (i + 1) _ v hv with hin | ⟨hn, hc⟩
        · simp only [createVariable, List.mem_append, List.mem_singleton] at hin
          rcases hin with hin | rfl
          · exact .inl hin
          · exact .inr ⟨by simp, rfl⟩
        · exact .inr ⟨by simp [hn], hc⟩
    · rw [hfind] at hv
      rcases pass2Vars_provenance rest _ cid total (i + 1) _ v hv with hin | ⟨hn, hc⟩
      · exact .inl hin
      · exact .inr ⟨by simp [hn], hc⟩

/-- Provenance through Pass 2: every variable of the resulting host (also on
the throwing path) was already present or bears a path from the flattening of
some collection's first declared mode. -/
theorem pass2_provenance : ∀ (data : Doc) (h : Host) (cmap : List (String × Nat))
    (lgflag : Bool) (logs : List LogEvent) (v : HVariable),
    v ∈ (pass2OutHost3 (pass2 h cmap lgflag logs data)).vars →
    v ∈ h.vars ∨ ∃ p ∈ data, ∃ mg, p.2.head? = some mg ∧
      v.name ∈ (flattenVariables mg.2 "" false).1.map Prod.fst
  | [], h, cmap, lgflag, logs, v => fun hv => .inl hv
  | (cn, modes) :: rest, h, cmap, lgflag, logs, v => by
    intro hv
    simp only [pass2] at hv
    rcases hlook : lookupStr cmap cn with _ | cid
    · rw [hlook] at hv
      rcases pass2_provenance rest h cmap lgflag logs v hv with hin | ⟨p, hp, mg, hmg, hname⟩
      · exact .inl hin
      · exact .inr ⟨p, List.mem_cons_of_mem _ hp, mg, hmg, hname⟩
    · simp only [hlook] at hv
      cases modes with
      | nil => exact .inl hv
      | cons m0 ms =>
        obtain ⟨mn0, g0⟩ := m0
        rcases hpv : pass2Vars h cid (flattenVariables g0 "" lgflag).1.length 0 logs
            (flattenVariables g0 "" lgflag).1 with e | r
        · simp only [hpv, pass2OutHost3] at hv
          have hsub := pass2Vars_provenance (flattenVariables g0 "" lgflag).1 h cid
            (flattenVariables g0 "" lgflag).1.length 0 logs v (by rw [hpv]; exact hv)
          rcases hsub with hin | ⟨hn, _⟩
          · exact .inl hin
          · refine .inr ⟨(cn, (mn0, g0) :: ms), List.mem_cons_self _ _, (mn0, g0), rfl, ?_⟩
            rwa [show (flattenVariables g0 "" false).1 =
              (flattenVariables g0 "" lgflag).1 from
              flattenGo_fst_flag "" [] false lgflag g0]
        · simp only [hpv] at hv
          rcases pass2_provenance rest r.1 cmap (flattenVariables g0 "" lgflag).2 r.2 v hv
            with hin | ⟨p, hp, mg, hmg, hname⟩
          · have hsub := pass2Vars_provenance (flattenVariables g0 "" lgflag).1 h cid
              (flattenVariables g0 "" lgflag).1.length 0 logs v (by rw [hpv]; exact hin)
            rcases hsub with hin2 | ⟨hn, _⟩
            · exact .inl hin2
            · refine .inr ⟨(cn, (mn0, g0) :: ms), List.mem_cons_self _ _, (mn0, g0), rfl, ?_⟩
              rwa [show (flattenVariables g0 "" false).1 =
                (flattenVariables g0 "" lgflag).1 from
                flattenGo_fst_flag "" [] false lgflag g0]
          · exact .inr ⟨p, List.mem_cons_of_mem _ hp, mg, hmg, hname⟩

/-- Setting a value preserves every variable's identity signature. -/
theorem setValueForMode_sig (h : Host) (vid modeId : Nat) (val : JNode) :
    (setValueForMode h vid modeId val).vars.map varSig = h.vars.map varSig := by
  simp only [setValueForMode, List.map_map]
  apply List.map_congr_left
  intro v _
  by_cases hv : v.id = vid <;> simp [hv, varSig]

/-- Pass 3's per-record step preserves every variable's identity signature. -/
theorem processValue_sig (h : Host) (cid modeId : Nat) (varName : String)
    (varData : TokenRecord) :
    ((processValue h cid modeId varName varData).1).vars.map varSig = h.vars.map varSig := by
  simp only [processValue]
  rcases hfind : findVariable h varName cid with _ | vrb
  · simp only [hfind]
  · simp only [hfind]
    rcases hdet : detectAlias varData with _ | ⟨tc, tv⟩
    · simp only [hdet]
      rcases hco : coerceValue vrb.resolvedType varData.dvalue with e | v2
      · simp only [hco]
      · simp only [hco]
        exact setValueForMode_sig _ _ _ _
    · simp only [hdet]
      rcases hres : resolveAliasTarget h tc tv with ⟨tvx, logs2⟩
      rcases tvx with _ | tvar
      · simp only [hres]
      · simp only [hres]
        exact setValueForMode_sig _ _ _ _

/-- Pass 3's inner loop preserves every variable's identity signature. -/
theorem pass3Vars_sig : ∀ (recs : List (String × TokenRecord)) (h : Host)
    (cid modeId total i : Nat) (logs : List LogEvent),
    ((pass3Vars h cid modeId total i logs recs).1).vars.map varSig = h.vars.map varSig
  | [], _, _, _, _, _, _ => rfl
  | (varName, varData) :: rest, h, cid, modeId, total, i, logs => by
    simp only [pass3Vars]
    rw [pass3Vars_sig rest _ cid modeId total (i + 1) _, processValue_sig]

/-- Pass 3's mode loop preserves every variable's identity signature. -/
theorem pass3Modes_sig : ∀ (modes : List (String × Group)) (h : Host) (cid : Nat)
    (mmap : List (String × Nat)) (lgflag : Bool) (logs : List LogEvent),
    ((pass3Modes h cid mmap lgflag logs modes).1).vars.map varSig = h.vars.map varSig
  | [], _, _, _, _, _ => rfl
  | (modeName, varGroups) :: rest, h, cid, mmap, lgflag, logs => by
    simp only [pass3Modes]
    rcases hlook : lookupStr mmap modeName with _ | modeId
    · simp only [hlook]
      exact pass3Modes_sig rest h cid mmap lgflag logs
    · simp only [hlook]
      rw [pass3Modes_sig rest _ cid mmap _ _, pass3Vars_sig]

/-- Pass 3 preserves every variable's identity signature. -/
theorem pass3_sig : ∀ (data : Doc) (h : Host) (cmap : List (String × Nat))
    (mmaps : List (String × List (String × Nat))) (lgflag : Bool) (logs : List LogEvent),
    ((pass3 h cmap mmaps lgflag logs data).1).vars.map varSig = h.vars.map varSig
  | [], _, _, _, _, _ => rfl
  | (cn, modes) :: rest, h, cmap, mmaps, lgflag, logs => by
    simp only [pass3]
    rcases hlook : lookupStr cmap cn with _ | cid
    · simp only [hlook]
      exact pass3_sig rest h cmap mmaps lgflag logs
    · simp only [hlook]
      rw [pass3_sig rest _ cmap mmaps _ _, pass3Modes_sig]

/-- `Map.set` preserves key uniqueness. -/
theorem mapSet_keys_nodup (m : List (String × α)) (k : String) (v : α)
    (h : (m.map Prod.fst).Nodup) : ((mapSet m k v).map Prod.fst).Nodup := by
  by_cases hany : (m.any (fun p => p.1 == k)) = true
  · have hm : mapSet m k v = m.map (fun p => if p.1 == k then (k, v) else p) := by
      simp [mapSet, hany]
    rw [hm]
    have hkeys : ((m.map (fun p => if p.1 == k then (k, v) else p)).map Prod.fst)
        = m.map Prod.fst := by
      rw [List.map_map]
      apply List.map_congr_left
      intro p _
      by_cases hp : (p.1 == k) = true
      · have hpk : p.1 = k := eq_of_beq hp
        simp [Function.comp_apply, hpk]
      · have hpk : p.1 ≠ k := fun hc => hp (by simp [hc])
        simp [Function.comp_apply, hpk]
    rw [hkeys]
    exact h
  · have hm : mapSet m k v = m ++ [(k, v)] := by
      simp [mapSet, hany]
    rw [hm]
    simp only [List.map_append, List.map_cons, List.map_nil]
    refine List.Nodup.append h (List.nodup_singleton k) ?_
    intro a ha hk
    simp only [List.mem_singleton] at hk
    subst hk
    obtain ⟨p, hp, hpk⟩ := List.mem_map.mp ha
    exact hany (List.any_eq_true.mpr ⟨p, hp, by simp [hpk]⟩)

/-- Merging any list through `Map.set` preserves key uniqueness. -/
theorem foldl_mapSet_keys_nodup :
    ∀ (l : List (String × TokenRecord)) (acc : List (String × TokenRecord)),
    (acc.map Prod.fst).Nodup →
    ((l.foldl (fun a p => mapSet a p.1 p.2) acc).map Prod.fst).Nodup
  | [], _, h => h
  | p :: rest, acc, h =>
    foldl_mapSet_keys_nodup rest (mapSet acc p.1 p.2) (mapSet_keys_nodup _ _ _ h)

/-- The flattened record map has pairwise distinct paths. -/
theorem flattenGo_keys_nodup : ∀ (fs : JFields) (pre : String)
    (acc : List (String × TokenRecord)) (lg : Bool),
    (acc.map Prod.fst).Nodup → (((flattenGo pre acc lg fs).1).map Prod.fst).Nodup
  | .nil, _, _, _, h => h
  | .fcons k v rest, pre, acc, lg, h => by
    cases v with
    | prim w =>
      simp only [flattenGo]
      split
      · exact flattenGo_keys_nodup rest pre acc lg h
      · exact flattenGo_keys_nodup rest pre acc lg h
    | obj fields =>
      simp only [flattenGo]
      split
      · exact flattenGo_keys_nodup rest pre acc lg h
      · by_cases hv : isVariableFields fields = true
        · rw [if_pos hv]
          exact flattenGo_keys_nodup rest pre _ _ (mapSet_keys_nodup _ _ _ h)
        · rw [if_neg hv]
          exact flattenGo_keys_nodup rest pre _ _ (foldl_mapSet_keys_nodup _ _ h)
    | arr elems =>
      simp only [flattenGo]
      split
      · exact flattenGo_keys_nodup rest pre acc lg h
      · exact flattenGo_keys_nodup rest pre _ _ (foldl_mapSet_keys_nodup _ _ h)

/-- A fresh variable with a different name does not make a scoped lookup succeed. -/
theorem findVariable_create_none (h : Host) (p q : String) (cid : Nat) (t : FigType)
    (hnone : findVariable h p cid = none) (hpq : p ≠ q) :
    findVariable (createVariable h q cid t) p cid = none := by
  simp only [findVariable, createVariable] at hnone ⊢
  rw [List.find?_append, hnone]
  simp
  intro hq
  exact absurd hq.symm hpq

/-- Pass 2's inner loop only appends variables. -/
theorem pass2Vars_mono : ∀ (recs : List (String × TokenRecord)) (h : Host)
    (cid total i : Nat) (logs : List LogEvent) (h2 : Host) (logs2 : List LogEvent),
    pass2Vars h cid total i logs recs = .ok (h2, logs2) → ∀ v ∈ h.vars, v ∈ h2.vars
  | [], h, cid, total, i, logs, h2, logs2 => by
    intro heq v hv
    simp only [pass2Vars, Except.ok.injEq, Prod.mk.injEq] at heq
    rw [← heq.1]
    exact hv
  | (q, rq) :: rest, h, cid, total, i, logs, h2, logs2 => by
    intro heq v hv
    simp only [pass2Vars] at heq
    rcases hfind : findVariable h q cid with _ | w
    · rw [hfind] at heq
      rcases hty : pass2Type rq.dtype with e | t
      · rw [hty] at heq
        exact absurd heq (by simp)
      · rw [hty] at heq
        exact pass2Vars_mono rest _ cid total (i + 1) _ h2 logs2 heq v
          (by simp [createVariable, hv])
    · rw [hfind] at heq
      exact pass2Vars_mono rest _ cid total (i + 1) _ h2 logs2 heq v hv

/-- Pass 2's inner loop creates, for every discovered path with no existing
scoped variable, a variable with the path's name, the processed collection's
id, and the type-tag-mapped resolved type. -/
theorem pass2Vars_creates : ∀ (recs : List (String × TokenRecord)) (h : Host)
    (cid total i : Nat) (logs : List LogEvent) (h2 : Host) (logs2 : List LogEvent),
    (recs.map Prod.fst).Nodup →
    pass2Vars h cid total i logs recs = .ok (h2, logs2) →
    ∀ pr ∈ recs, okTypeTag pr.2.dtype = true → findVariable h pr.1 cid = none →
      ∃ v ∈ h2.vars, v.name = pr.1 ∧ v.variableCollectionId = cid ∧
        v.resolvedType = specPass2Type pr.2.dtype
  | [], _, _, _, _, _, _, _ => by
    intro _ _ pr hpr
    exact absurd hpr (List.not_mem_nil pr)
  | (q, rq) :: rest, h, cid, total, i, logs, h2, logs2 => by
    intro hnodup heq pr hpr hok hnone
    simp only [pass2Vars] at heq
    simp only [List.map_cons, List.nodup_cons] at hnodup
    rcases hfind : findVariable h q cid with _ | w
    · rw [hfind] at heq
      rcases hty : pass2Type rq.dtype with e | t
      · rw [hty] at heq
        exact absurd heq (by simp)
      · rw [hty] at heq
        rcases List.mem_cons.mp hpr with rfl | hmem
        · refine ⟨⟨h.nextId, q, cid, t, []⟩, ?_, rfl, rfl, ?_⟩
          · exact pass2Vars_mono rest _ cid total (i + 1) _ h2 logs2 heq _
              (by simp [createVariable])
          · have := pass2Type_ok rq.dtype hok
            rw [hty] at this
            exact (Except.ok.injEq _ _).mp this
        · have hne : pr.1 ≠ q := by
            intro hcontra
            exact hnodup.1 (hcontra ▸ List.mem_map_of_mem Prod.fst hmem)
          exact pass2Vars_creates rest _ cid total (i + 1) _ h2 logs2 hnodup.2 heq pr hmem
            hok (findVariable_create_none h pr.1 q cid t hnone hne)
    · rw [hfind] at heq
      rcases List.mem_cons.mp hpr with rfl | hmem
      · rw [hnone] at hfind
        exact absurd hfind (by simp)
      · exact pass2Vars_creates rest _ cid total (i + 1) _ h2 logs2 hnodup.2 heq pr hmem
          hok hnone

/-- Host operations in Passes 2 and 3 never touch the collections. -/
theorem processValue_cols (h : Host) (cid modeId : Nat) (varName : String)
    (varData : TokenRecord) :
    ((processValue h cid modeId varName varData).1).collections = h.collections := by
  simp only [processValue]
  rcases hfind : findVariable h varName cid with _ | vrb
  · simp only [hfind]
  · simp only [hfind]
    rcases hdet : detectAlias varData with _ | ⟨tc, tv⟩
    · simp only [hdet]
      rcases hco : coerceValue vrb.resolvedType varData.dvalue with e | v2
      · simp only [hco]
      · simp only [hco]
        rfl
    · simp only [hdet]
      rcases hres : resolveAliasTarget h tc tv with ⟨tvx, logs2⟩
      rcases tvx with _ | tvar
      · simp only [hres]
      · simp only [hres]
        rfl

/-- Pass 3's inner loop never touches the collections. -/
theorem pass3Vars_cols : ∀ (recs : List (String × TokenRecord)) (h : Host)
    (cid modeId total i : Nat) (logs : List LogEvent),
    ((pass3Vars h cid modeId total i logs recs).1).collections = h.collections
  | [], _, _, _, _, _, _ => rfl
  | (varName, varData) :: rest, h, cid, modeId, total, i, logs => by
    simp only [pass3Vars]
    rw [pass3Vars_cols rest _ cid modeId total (i + 1) _, processValue_cols]

/-- Pass 3's mode loop never touches the collections. -/
theorem pass3Modes_cols : ∀ (modes : List (String × Group)) (h : Host) (cid : Nat)
    (mmap : List (String × Nat)) (lgflag : Bool) (logs : List LogEvent),
    ((pass3Modes h cid mmap lgflag logs modes).1).collections = h.collections
  | [], _, _, _, _, _ => rfl
  | (modeName, varGroups) :: rest, h, cid, mmap, lgflag, logs => by
    simp only [pass3Modes]
    rcases hlook : lookupStr mmap modeName with _ | modeId
    · simp only [hlook]
      exact pass3Modes_cols rest h cid mmap lgflag logs
    · simp only [hlook]
      rw [pass3Modes_cols rest _ cid mmap _ _, pass3Vars_cols]

/-- Pass 3 never touches the collections. -/
theorem pass3_cols : ∀ (data : Doc) (h : Host) (cmap : List (String × Nat))
    (mmaps : List (String × List (String × Nat))) (lgflag : Bool) (logs : List LogEvent),
    ((pass3 h cmap mmaps lgflag logs data).1).collections = h.collections
  | [], _, _, _, _, _ => rfl
  | (cn, modes) :: rest, h, cmap, mmaps, lgflag, logs => by
    simp only [pass3]
    rcases hlook : lookupStr cmap cn with _ | cid
    · simp only [hlook]
      exact pass3_cols rest h cmap mmaps lgflag logs
    · simp only [hlook]
      rw [pass3_cols rest _ cmap mmaps _ _, pass3Modes_cols]

/-- Pass 2's inner loop never touches the collections (also at a throw). -/
theorem pass2Vars_cols : ∀ (recs : List (String × TokenRecord)) (h : Host)
    (cid total i : Nat) (logs : List LogEvent),
    (pass2OutHost (pass2Vars h cid total i logs recs)).collections = h.collections
  | [], _, _, _, _, _ => rfl
  | (q, rq) :: rest, h, cid, total, i, logs => by
    simp only [pass2Vars]
    rcases hfind : findVariable h q cid with _ | w
    · simp only [hfind]
      rcases hty : pass2Type rq.dtype with e | t
      · simp only [hty, pass2OutHost]
      · simp only [hty]
        rw [pass2Vars_cols rest _ cid total (i + 1) _]
        rfl
    · simp only [hfind]
      exact pass2Vars_cols rest h cid total (i + 1) _

/-- Pass 2 never touches the collections (also at a throw). -/
theorem pass2_cols : ∀ (data : Doc) (h : Host) (cmap : List (String × Nat))
    (lgflag : Bool) (logs : List LogEvent),
    (pass2OutHost3 (pass2 h cmap lgflag logs data)).collections = h.collections
  | [], _, _, _, _ => rfl
  | (cn, modes) :: rest, h, cmap, lgflag, logs => by
    simp only [pass2]
    rcases hlook : lookupStr cmap cn with _ | cid
    · simp only [hlook]
      exact pass2_cols rest h cmap lgflag logs
    · simp only [hlook]
      cases modes with
      | nil => rfl
      | cons m0 ms =>
        obtain ⟨mn0, g0⟩ := m0
        rcases hpv : pass2Vars h cid (flattenVariables g0 "" lgflag).1.length 0 logs
            (flattenVariables g0 "" lgflag).1 with e | r
        · simp only [hpv]
          have := pass2Vars_cols (flattenVariables g0 "" lgflag).1 h cid
            (flattenVariables g0 "" lgflag).1.length 0 logs
          rw [hpv] at this
          exact this
        · simp only [hpv]
          rw [pass2_cols rest r.1 cmap _ r.2]
          have := pass2Vars_cols (flattenVariables g0 "" lgflag).1 h cid
            (flattenVariables g0 "" lgflag).1.length 0 logs
          rw [hpv] at this
          exact this

/-- `renameMode` changes no collection id or name. -/
theorem renameMode_idname (h : Host) (cid mid : Nat) (n : String) :
    ((renameMode h cid mid n).collections.map (fun c => (c.id, c.name)))
      = h.collections.map (fun c => (c.id, c.name)) := by
  simp only [renameMode, List.map_map]
  apply List.map_congr_left
  intro c _
  by_cases hc : c.id = cid
  · simp [Function.comp_apply, hc]
  · simp [Function.comp_apply, hc]

/-- `addMode` changes no collection id or name. -/
theorem addMode_idname (h : Host) (cid : Nat) (n : String) :
    ((((addMode h cid n).1).collections).map (fun c => (c.id, c.name)))
      = h.collections.map (fun c => (c.id, c.name)) := by
  simp only [addMode, List.map_map]
  apply List.map_congr_left
  intro c _
  by_cases hc : c.id = cid
  · simp [Function.comp_apply, hc]
  · simp [Function.comp_apply, hc]

/-- The mode loop changes no collection id or name. -/
theorem modeLoop_idname : ∀ (names : List String) (h : Host) (cid : Nat) (cname : String)
    (snap : List VarMode) (i : Nat) (mmap : List (String × Nat)) (logs : List LogEvent),
    (((modeLoop h cid cname snap i mmap logs names).1).collections.map (fun c => (c.id, c.name)))
      = h.collections.map (fun c => (c.id, c.name))
  | [], _, _, _, _, _, _, _ => rfl
  | mn :: rest, h, cid, cname, snap, i, mmap, logs => by
    simp only [modeLoop]
    cases hf : snap.find? (fun m => m.name == mn) with
    | some m => exact modeLoop_idname rest h cid cname snap (i + 1) (mapSet mmap mn m.modeId) logs
    | none =>
      cases hd : snap.find? (fun m => m.name == "Mode 1") with
      | some dm =>
        by_cases hi : (i == 0) = true
        · simp only [hi, if_true]
          exact (modeLoop_idname rest _ cid cname snap (i + 1) _ _).trans
            (renameMode_idname h cid dm.modeId mn)
        · simp only [hi, if_false]
          exact (modeLoop_idname rest _ cid cname snap (i + 1) _ _).trans
            (addMode_idname h cid mn)
      | none =>
        exact (modeLoop_idname rest _ cid cname snap (i + 1) _ _).trans
          (addMode_idname h cid mn)

/-- Collection lookups by name agree on hosts whose collections carry the same
ids and names. -/
theorem find?_name_idname_eq (n : String) : ∀ (l1 l2 : List VCollection),
    l1.map (fun c => (c.id, c.name)) = l2.map (fun c => (c.id, c.name)) →
    ((l1.find? (fun c => c.name == n)).map (fun c => c.id))
      = (l2.find? (fun c => c.name == n)).map (fun c => c.id)
  | [], [], _ => rfl
  | [], _ :: _, h => by simp at h
  | _ :: _, [], h => by simp at h
  | c1 :: r1, c2 :: r2, h => by
    simp only [List.map_cons, List.cons.injEq, Prod.mk.injEq] at h
    obtain ⟨⟨hid, hname⟩, hrest⟩ := h
    cases hc : (c2.name == n) with
    | true =>
      have h1 : (c1.name == n) = true := by rw [hname]; exact hc
      simp only [List.find?, h1, hc]
      simp [hid]
    | false =>
      have h1 : (c1.name == n) = false := by rw [hname]; exact hc
      simp only [List.find?, h1, hc]
      exact find?_name_idname_eq n r1 r2 hrest

/-- `findCollectionByName`, projected to the id, through an id/name-preserving
host change. -/
theorem findCol_id_eq (n : String) (h1 h2 : Host)
    (hid : h1.collections.map (fun c => (c.id, c.name))
      = h2.collections.map (fun c => (c.id, c.name))) :
    ((findCollectionByName h1 n).map (fun c => c.id))
      = (findCollectionByName h2 n).map (fun c => c.id) :=
  find?_name_idname_eq n h1.collections h2.collections hid

/-- `findCollectionByName` only reads the collections. -/
theorem findCol_collections (h1 h2 : Host) (hc : h1.collections = h2.collections)
    (n : String) : findCollectionByName h1 n = findCollectionByName h2 n := by
  simp only [findCollectionByName, hc]

/-- Pass 1 on a one-collection document: the collection map binds the
collection's name to an id under which the collection is found by name in the
resulting host. -/
theorem pass1_single (h : Host) (cn : String) (modes : List (String × Group))
    (logs : List LogEvent) :
    ∃ cid,
      (pass1Go h [] [] logs [(cn, modes)]).2.1 = [(cn, cid)] ∧
      ((findCollectionByName (pass1Go h [] [] logs [(cn, modes)]).1 cn).map
        (fun c => c.id)) = some cid := by
  cases hf : findCollectionByName h cn with
  | some c =>
    refine ⟨c.id, ?_, ?_⟩
    · simp [pass1Go, hf, mapSet]
    · simp only [pass1Go, hf]
      refine Eq.trans (findCol_id_eq cn _ _ (modeLoop_idname _ _ _ _ _ _ _ _)) ?_
      rw [hf]
      rfl
  | none =>
    refine ⟨h.nextId, ?_, ?_⟩
    · simp [pass1Go, hf, createVariableCollection, mapSet]
    · simp only [pass1Go, hf, createVariableCollection]
      refine Eq.trans (findCol_id_eq cn _ _ (modeLoop_idname _ _ _ _ _ _ _ _)) ?_
      simp only [findCollectionByName] at hf
      simp [findCollectionByName, List.find?_append, hf]

/-- A one-entry token group whose leaf carries legacy `type`/`value` tags. -/
def c1Group : Group :=
  .fcons "a" (.obj (.fcons "type" (.prim (.str "color"))
    (.fcons "value" (.prim (.str "#FF0000")) .nil))) .nil

/-- A one-collection, one-mode document built from `c1Group`. -/
def c1Doc : Doc := [("C", [("M", c1Group)])]

/-- The mode loop never decreases the id counter. -/
theorem modeLoop_nextId_mono : ∀ (names : List String) (h : Host) (cid : Nat) (cname : String)
    (snapshot : List VarMode) (i : Nat) (mmap : List (String × Nat)) (logs : List LogEvent),
    h.nextId ≤ ((modeLoop h cid cname snapshot i mmap logs names).1).nextId
  | [], _, _, _, _, _, _, _ => le_refl _
  | mn :: rest, h, cid, cname, snapshot, i, mmap, logs => by
    simp only [modeLoop]
    cases hfm : snapshot.find? (fun m => m.name == mn) with
    | some m => exact modeLoop_nextId_mono rest h cid cname snapshot (i + 1) (mapSet mmap mn m.modeId) logs
    | none =>
      cases hfd : snapshot.find? (fun m => m.name == "Mode 1") with
      | some dm =>
        by_cases hi : (i == 0) = true
        · simp only [hi, if_true]
          exact modeLoop_nextId_mono rest (renameMode h cid dm.modeId mn) cid cname snapshot
            (i + 1) (mapSet mmap mn dm.modeId)
            (logs ++ [.info ("Renamed default \"Mode 1\" to \"" ++ mn ++ "\" in collection \"" ++ cname ++ "\"")])
        · simp only [hi, Bool.false_eq_true, if_false]
          refine Nat.le_trans ?_ (modeLoop_nextId_mono rest (addMode h cid mn).1 cid cname
            snapshot (i + 1) (mapSet mmap mn (addMode h cid mn).2)
            (logs ++ [LogEvent.info ("Adding mode \"" ++ mn ++ "\" to collection \"" ++ cname ++ "\"")]))
          exact Nat.le_succ h.nextId
      | none =>
        refine Nat.le_trans ?_ (modeLoop_nextId_mono rest (addMode h cid mn).1 cid cname
          snapshot (i + 1) (mapSet mmap mn (addMode h cid mn).2)
          (logs ++ [LogEvent.info ("Adding mode \"" ++ mn ++ "\" to collection \"" ++ cname ++ "\"")]))
        exact Nat.le_succ h.nextId

/-- `find?` of the updated key over `Map.set`'s in-place update. -/
theorem find?_mapSet_update_self (k : String) (v : α) : ∀ (m : List (String × α)),
    m.any (fun p => p.1 == k) = true →
    ((m.map (fun p => if p.1 == k then (k, v) else p)).find? (fun p => p.1 == k)) = some (k, v)
  | [] => by
    intro hcontra
    simp at hcontra
  | p :: rest => by
    intro hany
    by_cases hp : p.1 = k
    · simp [List.find?, hp]
    · have hp2 : (p.1 == k) = false := beq_eq_false_iff_ne.mpr hp
      have hrest : rest.any (fun p => p.1 == k) = true := by
        simpa [List.any_cons, hp2] using hany
      simp only [List.map_cons, hp2, Bool.false_eq_true, if_false, List.find?]
      exact find?_mapSet_update_self k v rest hrest

/-- `Map.set` makes the set key look up to the new value. -/
theorem lookupStr_mapSet_self (m : List (String × α)) (k : String) (v : α) :
    lookupStr (mapSet m k v) k = some v := by
  by_cases hany : m.any (fun p => p.1 == k) = true
  · have hm : mapSet m k v = m.map (fun p => if p.1 == k then (k, v) else p) := by
      simp [mapSet, hany]
    rw [hm]
    simp only [lookupStr, find?_mapSet_update_self k v m hany]
    rfl
  · have hm : mapSet m k v = m ++ [(k, v)] := by simp [mapSet, hany]
    rw [hm]
    have hnone : m.find? (fun p => p.1 == k) = none := by
      rw [List.find?_eq_none]
      intro p hp hcontra
      exact hany (List.any_eq_true.mpr ⟨p, hp, hcontra⟩)
    simp [lookupStr, List.find?_append, hnone, List.find?]

/-- `find?` of a different key is unaffected by `Map.set`'s in-place update. -/
theorem find?_mapSet_update_ne (k k2 : String) (v : α) (hne : k ≠ k2) :
    ∀ (m : List (String × α)),
    ((m.map (fun p => if p.1 == k2 then (k2, v) else p)).find? (fun p => p.1 == k))
      = m.find? (fun p => p.1 == k)
  | [] => rfl
  | p :: rest => by
    by_cases hp2 : p.1 = k2
    · have h1 : (k2 == k) = false := beq_eq_false_iff_ne.mpr (Ne.symm hne)
      have h2 : (p.1 == k) = false := by rw [hp2]; exact h1
      simp only [List.map_cons, hp2, beq_self_eq_true, if_true, List.find?, h1, h2]
      exact find?_mapSet_update_ne k k2 v hne rest
    · have hp2b : (p.1 == k2) = false := beq_eq_false_iff_ne.mpr hp2
      simp only [List.map_cons, hp2b, Bool.false_eq_true, if_false, List.find?]
      cases hp : (p.1 == k) with
      | true => simp only [hp]
      | false =>
        simp only [hp]
        exact find?_mapSet_update_ne k k2 v hne rest

/-- `Map.set` leaves other keys' lookups unchanged. -/
theorem lookupStr_mapSet_ne (m : List (String × α)) (k k2 : String) (v : α)
    (hne : k ≠ k2) : lookupStr (mapSet m k2 v) k = lookupStr m k := by
  by_cases hany : m.any (fun p => p.1 == k2) = true
  · have hm : mapSet m k2 v = m.map (fun p => if p.1 == k2 then (k2, v) else p) := by
      simp [mapSet, hany]
    rw [hm]
    simp only [lookupStr, find?_mapSet_update_ne k k2 v hne m]
  · have hm : mapSet m k2 v = m ++ [(k2, v)] := by simp [mapSet, hany]
    rw [hm]
    simp only [lookupStr, List.find?_append]
    cases hfm : m.find? (fun p => p.1 == k) with
    | some q => simp
    | none =>
      have h1 : (k2 == k) = false := beq_eq_false_iff_ne.mpr (Ne.symm hne)
      simp [List.find?, h1]

/-- A by-name collection find whose result id is known persists through any
extension of the id/name list. -/
theorem find?_name_idname_ext (n : String) : ∀ (l1 l2 : List VCollection)
    (ext : List (Nat × String)) (cid : Nat),
    (l2.map (fun c => (c.id, c.name)) = l1.map (fun c => (c.id, c.name)) ++ ext) →
    ((l1.find? (fun c => c.name == n)).map (fun c => c.id)) = some cid →
    ((l2.find? (fun c => c.name == n)).map (fun c => c.id)) = some cid
  | [], l2, ext, cid => by
    intro _ hf
    simp at hf
  | c1 :: r1, l2, ext, cid => by
    intro hgrow hf
    cases l2 with
    | nil => simp at hgrow
    | cons c2 r2 =>
      simp only [List.map_cons, List.cons_append, List.cons.injEq, Prod.mk.injEq] at hgrow
      obtain ⟨⟨hid, hname⟩, hrest⟩ := hgrow
      cases hc : (c1.name == n) with
      | true =>
        have h2 : (c2.name == n) = true := by rw [hname]; exact hc
        simp only [List.find?, hc, h2] at hf ⊢
        have hc1 : c1.id = cid := by simpa using hf
        simpa [hid] using hc1
      | false =>
        have h2 : (c2.name == n) = false := by rw [hname]; exact hc
        simp only [List.find?, hc, h2] at hf ⊢
        exact find?_name_idname_ext n r1 r2 ext cid hrest hf

/-- What Pass 1 guarantees about its collection map, for a document with
pairwise-distinct collection names on a host with fresh, pairwise-distinct
collection ids: invariants persist, the id/name list only grows, every entry's
name is mapped to the id under which its collection is found by name in the
resulting host, and bindings of names not in the document are untouched. -/
abbrev p1Cmap (h : Host) (cmap : List (String × Nat)) (data : Doc)
    (R : Host × List (String × Nat) × List (String × List (String × Nat)) × List LogEvent) :
    Prop :=
  (∀ c ∈ R.1.collections, c.id < R.1.nextId) ∧
  ((R.1.collections.map (fun c => c.id)).Nodup) ∧
  (h.nextId ≤ R.1.nextId) ∧
  (∃ ext, R.1.collections.map (fun c => (c.id, c.name))
    = h.collections.map (fun c => (c.id, c.name)) ++ ext) ∧
  (∀ p ∈ data, ∃ cid, lookupStr R.2.1 p.1 = some cid ∧
    ((findCollectionByName R.1 p.1).map (fun c => c.id)) = some cid) ∧
  (∀ k, k ∉ data.map Prod.fst → lookupStr R.2.1 k = lookupStr cmap k)

/-- Pass 1 establishes `p1Cmap`. -/
theorem pass1_cmap : ∀ (data : Doc) (h : Host) (cmap : List (String × Nat))
    (mmaps : List (String × List (String × Nat))) (logs : List LogEvent),
    ((data.map Prod.fst).Nodup) →
    (∀ c ∈ h.collections, c.id < h.nextId) →
    ((h.collections.map (fun c => c.id)).Nodup) →
    p1Cmap h cmap data (pass1Go h cmap mmaps logs data)
  | [], h, cmap, mmaps, logs => by
    intro _ hlt hnd
    exact ⟨hlt, hnd, le_refl _, ⟨[], (List.append_nil _).symm⟩,
      fun p hp => absurd hp (List.not_mem_nil p), fun k _ => rfl⟩
  | (cn, modes) :: rest, h, cmap, mmaps, logs => by
    intro hnodup hlt hnd
    simp only [List.map_cons, List.nodup_cons] at hnodup
    obtain ⟨hcnotin, hnodup2⟩ := hnodup
    simp only [pass1Go]
    cases hf : findCollectionByName h cn with
    | some c =>
      simp only [hf]
      have hidname := modeLoop_idname (modes.map (fun p => p.1)) h c.id cn c.modes 0 [] logs
      have hmono := modeLoop_nextId_mono (modes.map (fun p => p.1)) h c.id cn c.modes 0 [] logs
      generalize hML : modeLoop h c.id cn c.modes 0 [] logs (modes.map (fun p => p.1)) = ML
        at hidname hmono ⊢
      have hlt1 : ∀ c2 ∈ ML.1.collections, c2.id < ML.1.nextId := by
        intro c2 hc2
        have hmm : (c2.id, c2.name) ∈ h.collections.map (fun c => (c.id, c.name)) := by
          rw [← hidname]
          exact List.mem_map_of_mem _ hc2
        obtain ⟨c0, hc0, heq⟩ := List.mem_map.mp hmm
        have hid0 : c0.id = c2.id := congrArg Prod.fst heq
        exact lt_of_lt_of_le (hid0 ▸ hlt c0 hc0) hmono
      have hnd1 : (ML.1.collections.map (fun c => c.id)).Nodup := by
        have hids_eq : ML.1.collections.map (fun c => c.id)
            = h.collections.map (fun c => c.id) := by
          have h2 := congrArg (fun l => l.map Prod.fst) hidname
          simpa [List.map_map, Function.comp] using h2
        rw [hids_eq]
        exact hnd
      have IH := pass1_cmap rest ML.1 (mapSet cmap cn c.id) (mapSet mmaps cn ML.2.1) ML.2.2
        hnodup2 hlt1 hnd1
      refine ⟨IH.1, IH.2.1, le_trans hmono IH.2.2.1, ?_, ?_, ?_⟩
      · obtain ⟨ext, hext⟩ := IH.2.2.2.1
        exact ⟨ext, by rw [hext, hidname]⟩
      · intro p hp
        rcases List.mem_cons.mp hp with rfl | hmem
        · refine ⟨c.id, ?_, ?_⟩
          · exact (IH.2.2.2.2.2 cn hcnotin).trans (lookupStr_mapSet_self cmap cn c.id)
          · have hfh : ((findCollectionByName h cn).map (fun c => c.id)) = some c.id := by
              rw [hf]
              rfl
            have hfml : ((findCollectionByName ML.1 cn).map (fun c => c.id)) = some c.id := by
              rw [findCol_id_eq cn ML.1 h hidname]
              exact hfh
            obtain ⟨ext, hext⟩ := IH.2.2.2.1
            exact find?_name_idname_ext cn ML.1.collections _ ext c.id hext hfml
        · exact IH.2.2.2.2.1 p hmem
      · intro k hk
        have hkc : k ∉ cn :: rest.map Prod.fst := hk
        have hk1 : k ≠ cn := fun hcontra => hkc (by rw [hcontra]; exact List.mem_cons_self _ _)
        have hk2 : k ∉ rest.map Prod.fst := fun hcontra => hkc (List.mem_cons_of_mem _ hcontra)
        rw [IH.2.2.2.2.2 k hk2, lookupStr_mapSet_ne cmap k cn c.id hk1]
    | none =>
      simp only [hf]
      have h2id : (createVariableCollection h cn).2.id = h.nextId := rfl
      have h2modes : (createVariableCollection h cn).2.modes
          = [⟨h.nextId + 1, "Mode 1"⟩] := rfl
      rw [h2id, h2modes]
      have hidname := modeLoop_idname (modes.map (fun p => p.1))
        (createVariableCollection h cn).1 h.nextId cn [⟨h.nextId + 1, "Mode 1"⟩] 0 []
        (logs ++ [.info ("Creating collection: " ++ cn)])
      have hmono := modeLoop_nextId_mono (modes.map (fun p => p.1))
        (createVariableCollection h cn).1 h.nextId cn [⟨h.nextId + 1, "Mode 1"⟩] 0 []
        (logs ++ [.info ("Creating collection: " ++ cn)])
      generalize hML : modeLoop (createVariableCollection h cn).1 h.nextId cn
        [⟨h.nextId + 1, "Mode 1"⟩] 0 []
        (logs ++ [.info ("Creating collection: " ++ cn)]) (modes.map (fun p => p.1)) = ML
        at hidname hmono ⊢
      have hcre : (createVariableCollection h cn).1.collections.map (fun c => (c.id, c.name))
          = h.collections.map (fun c => (c.id, c.name)) ++ [(h.nextId, cn)] := by
        simp [createVariableCollection]
      have hidname2 : ML.1.collections.map (fun c => (c.id, c.name))
          = h.collections.map (fun c => (c.id, c.name)) ++ [(h.nextId, cn)] := by
        rw [hidname, hcre]
      have hnext1 : (createVariableCollection h cn).1.nextId = h.nextId + 2 := rfl
      have hmono2 : h.nextId + 2 ≤ ML.1.nextId := hnext1 ▸ hmono
      have hlt1 : ∀ c2 ∈ ML.1.collections, c2.id < ML.1.nextId := by
        intro c2 hc2
        have hmm : (c2.id, c2.name) ∈
            h.collections.map (fun c => (c.id, c.name)) ++ [(h.nextId, cn)] := by
          rw [← hidname2]
          exact List.mem_map_of_mem _ hc2
        rcases List.mem_append.mp hmm with hin | hin
        · obtain ⟨c0, hc0, heq⟩ := List.mem_map.mp hin
          have hid0 : c0.id = c2.id := congrArg Prod.fst heq
          have hc0lt := hlt c0 hc0
          omega
        · simp only [List.mem_singleton, Prod.mk.injEq] at hin
          have hin1 := hin.1
          omega
      have hnd1 : (ML.1.collections.map (fun c => c.id)).Nodup := by
        have hids_eq : ML.1.collections.map (fun c => c.id)
            = h.collections.map (fun c => c.id) ++ [h.nextId] := by
          have h2 := congrArg (fun l => l.map Prod.fst) hidname2
          simpa [List.map_map, Function.comp] using h2
        rw [hids_eq]
        refine List.Nodup.append hnd (List.nodup_singleton _) ?_
        intro a ha hb
        simp only [List.mem_singleton] at hb
        subst hb
        obtain ⟨c0, hc0, hc0id⟩ := List.mem_map.mp ha
        have hc0lt := hlt c0 hc0
        omega
      have IH := pass1_cmap rest ML.1 (mapSet cmap cn h.nextId) (mapSet mmaps cn ML.2.1)
        ML.2.2 hnodup2 hlt1 hnd1
      refine ⟨IH.1, IH.2.1, ?_, ?_, ?_, ?_⟩
      · exact le_trans (le_trans (Nat.le_add_right h.nextId 2) hmono2) IH.2.2.1
      · obtain ⟨ext, hext⟩ := IH.2.2.2.1
        refine ⟨[(h.nextId, cn)] ++ ext, ?_⟩
        rw [hext, hidname2, List.append_assoc]
      · intro p hp
        rcases List.mem_cons.mp hp with rfl | hmem
        · refine ⟨h.nextId, ?_, ?_⟩
          · exact (IH.2.2.2.2.2 cn hcnotin).trans (lookupStr_mapSet_self cmap cn h.nextId)
          · have hfml : ((findCollectionByName ML.1 cn).map (fun c => c.id))
                = some h.nextId := by
              rw [findCol_id_eq cn ML.1 (createVariableCollection h cn).1 hidname]
              have hfn : h.collections.find? (fun c => c.name == cn) = none := hf
              simp [findCollectionByName, createVariableCollection, List.find?_append,
                hfn, List.find?]
            obtain ⟨ext, hext⟩ := IH.2.2.2.1
            exact find?_name_idname_ext cn ML.1.collections _ ext h.nextId hext hfml
        · exact IH.2.2.2.2.1 p hmem
      · intro k hk
        have hkc : k ∉ cn :: rest.map Prod.fst := hk
        have hk1 : k ≠ cn := fun hcontra => hkc (by rw [hcontra]; exact List.mem_cons_self _ _)
        have hk2 : k ∉ rest.map Prod.fst := fun hcontra => hkc (List.mem_cons_of_mem _ hcontra)
        rw [IH.2.2.2.2.2 k hk2, lookupStr_mapSet_ne cmap k cn h.nextId hk1]

/-- Pass 2 only ever appends variables. -/
theorem pass2_mono : ∀ (data : Doc) (h : Host) (cmap : List (String × Nat))
    (lgflag : Bool) (logs : List LogEvent) (h2 : Host) (lg2 : Bool) (logs2 : List LogEvent),
    pass2 h cmap lgflag logs data = .ok (h2, lg2, logs2) → ∀ v ∈ h.vars, v ∈ h2.vars
  | [], h, cmap, lgflag, logs, h2, lg2, logs2 => by
    intro heq v hv
    simp only [pass2, Except.ok.injEq, Prod.mk.injEq] at heq
    rw [← heq.1]
    exact hv
  | (cn, modes) :: rest, h, cmap, lgflag, logs, h2, lg2, logs2 => by
    intro heq v hv
    simp only [pass2] at heq
    rcases hlook : lookupStr cmap cn with _ | cid
    · rw [hlook] at heq
      exact pass2_mono rest h cmap lgflag logs h2 lg2 logs2 heq v hv
    · simp only [hlook] at heq
      cases modes with
      | nil => exact absurd heq (by simp)
      | cons m0 ms =>
        obtain ⟨mn0, g0⟩ := m0
        rcases hpv : pass2Vars h cid (flattenVariables g0 "" lgflag).1.length 0 logs
            (flattenVariables g0 "" lgflag).1 with e | q
        · simp only [hpv] at heq
          exact absurd heq (by simp)
        · obtain ⟨qh, qlogs⟩ := q
          simp only [hpv] at heq
          exact pass2_mono rest qh cmap _ qlogs h2 lg2 logs2 heq v
            (pass2Vars_mono _ h cid _ 0 logs qh qlogs hpv v hv)

/-- A scoped lookup stays unsuccessful when the host only gained variables of
a different collection. -/
theorem findVariable_none_pres (h hA : Host) (n : String) (cid cid0 : Nat)
    (hnone : findVariable h n cid = none)
    (hprov : ∀ v ∈ hA.vars, v ∈ h.vars ∨ v.variableCollectionId = cid0)
    (hne : cid0 ≠ cid) :
    findVariable hA n cid = none := by
  simp only [findVariable] at hnone ⊢
  rw [List.find?_eq_none] at hnone ⊢
  intro v hv
  rcases hprov v hv with hin | hcid
  · exact hnone v hin
  · intro hpred
    simp only [Bool.and_eq_true, beq_iff_eq] at hpred
    exact hne (hcid ▸ hpred.2)

/-- Pass 2 creation over an arbitrary document: for every collection entry
whose name is uniquely bound to a collection id that no differently-named
entry shares, every first-mode path with no pre-existing variable of that
name in that collection gets a variable with the mapped resolved type. -/
theorem pass2_creates : ∀ (data : Doc) (h : Host) (cmap : List (String × Nat))
    (lgflag : Bool) (logs : List LogEvent) (h2 : Host) (lg2 : Bool) (logs2 : List LogEvent),
    pass2 h cmap lgflag logs data = .ok (h2, lg2, logs2) →
    ∀ p ∈ data, ∀ cid, lookupStr cmap p.1 = some cid →
    (∀ q ∈ data, q.1 = p.1 → q = p) →
    (∀ q ∈ data, q.1 ≠ p.1 → ∀ cidq, lookupStr cmap q.1 = some cidq → cidq ≠ cid) →
    ∀ mg, p.2.head? = some mg →
    (∀ r ∈ (flattenVariables mg.2 "" false).1, okTypeTag r.2.dtype = true) →
    ∀ pr ∈ (flattenVariables mg.2 "" false).1,
      findVariable h pr.1 cid = none →
      ∃ v ∈ h2.vars, v.name = pr.1 ∧ v.variableCollectionId = cid ∧
        v.resolvedType = specPass2Type pr.2.dtype
  | [], _, _, _, _, _, _, _ => by
    intro _ p hp
    exact absurd hp (List.not_mem_nil p)
  | (cn, modes) :: rest, h, cmap, lgflag, logs, h2, lg2, logs2 => by
    intro heq p hp cid hcid huniq hcross mg hmg hok pr hpr hfresh
    simp only [pass2] at heq
    rcases hlook : lookupStr cmap cn with _ | cid0
    · rw [hlook] at heq
      rcases List.mem_cons.mp hp with rfl | hmem
      · dsimp only at hcid
        rw [hlook] at hcid
        exact absurd hcid (by simp)
      · exact pass2_creates rest h cmap lgflag logs h2 lg2 logs2 heq p hmem cid hcid
          (fun q hq => huniq q (List.mem_cons_of_mem _ hq))
          (fun q hq => hcross q (List.mem_cons_of_mem _ hq)) mg hmg hok pr hpr hfresh
    · simp only [hlook] at heq
      cases modes with
      | nil => exact absurd heq (by simp)
      | cons m0 ms =>
        obtain ⟨mn0, g0⟩ := m0
        rcases hpv : pass2Vars h cid0 (flattenVariables g0 "" lgflag).1.length 0 logs
            (flattenVariables g0 "" lgflag).1 with e | q
        · simp only [hpv] at heq
          exact absurd heq (by simp)
        · obtain ⟨qh, qlogs⟩ := q
          simp only [hpv] at heq
          have hsplit : p = (cn, (mn0, g0) :: ms) ∨ (p ∈ rest ∧ cn ≠ p.1) := by
            rcases List.mem_cons.mp hp with rfl | hmem
            · exact Or.inl rfl
            · by_cases hname : cn = p.1
              · exact Or.inl (huniq (cn, (mn0, g0) :: ms) (List.mem_cons_self _ _) hname).symm
              · exact Or.inr ⟨hmem, hname⟩
          rcases hsplit with rfl | ⟨hmem, hname⟩
          · dsimp only at hcid hmg hok hpr hfresh
            rw [hlook] at hcid
            have hcc : cid0 = cid := Option.some_inj.mp hcid
            subst hcc
            simp only [List.head?_cons, Option.some.injEq] at hmg
            subst hmg
            dsimp only at hok hpr
            have hfst : (flattenVariables g0 "" lgflag).1
                = (flattenVariables g0 "" false).1 :=
              flattenGo_fst_flag "" [] lgflag false g0
            have hnodupf : (((flattenVariables g0 "" lgflag).1).map Prod.fst).Nodup :=
              flattenGo_keys_nodup g0 "" [] lgflag List.nodup_nil
            have hpr2 : pr ∈ (flattenVariables g0 "" lgflag).1 := by
              rw [hfst]
              exact hpr
            obtain ⟨v, hv, hn1, hn2, hn3⟩ := pass2Vars_creates
              (flattenVariables g0 "" lgflag).1 h cid0
              (flattenVariables g0 "" lgflag).1.length 0 logs qh qlogs
              hnodupf hpv pr hpr2 (hok pr hpr) hfresh
            exact ⟨v, pass2_mono rest qh cmap _ qlogs h2 lg2 logs2 heq v hv, hn1, hn2, hn3⟩
          · have hcidne : cid0 ≠ cid :=
              hcross (cn, (mn0, g0) :: ms) (List.mem_cons_self _ _) hname cid0 hlook
            have hprov : ∀ v ∈ qh.vars, v ∈ h.vars ∨ v.variableCollectionId = cid0 := by
              intro v hv
              have hpp := pass2Vars_provenance (flattenVariables g0 "" lgflag).1 h cid0
                (flattenVariables g0 "" lgflag).1.length 0 logs v (by rw [hpv]; exact hv)
              rcases hpp with hin | ⟨_, hcid2⟩
              · exact Or.inl hin
              · exact Or.inr hcid2
            have hfreshA : findVariable qh pr.1 cid = none :=
              findVariable_none_pres h qh pr.1 cid cid0 hfresh hprov hcidne
            exact pass2_creates rest qh cmap _ qlogs h2 lg2 logs2 heq p hmem cid hcid
              (fun q hq => huniq q (List.mem_cons_of_mem _ hq))
              (fun q hq => hcross q (List.mem_cons_of_mem _ hq)) mg hmg hok pr hpr hfreshA

/-- The host collections after `handleImport` are exactly those Pass 1 leaves
(Passes 2 and 3 never touch collections, also on the throwing path). -/
theorem runImport_cols (data : Doc) (h : Host) :
    (runImport data h).host.collections
      = ((pass1Go h [] [] [.info "Starting import..."] data).1).collections := by
  simp only [runImport]
  rcases hp2 : pass2 (pass1Go h [] [] [.info "Starting import..."] data).1
      (pass1Go h [] [] [.info "Starting import..."] data).2.1 false
      (pass1Go h [] [] [.info "Starting import..."] data).2.2.2 data with e | r
  · simp only [hp2]
    have hc := pass2_cols data (pass1Go h [] [] [.info "Starting import..."] data).1
      (pass1Go h [] [] [.info "Starting import..."] data).2.1 false
      (pass1Go h [] [] [.info "Starting import..."] data).2.2.2
    rw [hp2] at hc
    exact hc
  · simp only [hp2]
    have hc := pass2_cols data (pass1Go h [] [] [.info "Starting import..."] data).1
      (pass1Go h [] [] [.info "Starting import..."] data).2.1 false
      (pass1Go h [] [] [.info "Starting import..."] data).2.2.2
    rw [hp2] at hc
    exact (pass3_cols data r.1 (pass1Go h [] [] [.info "Starting import..."] data).2.1
      (pass1Go h [] [] [.info "Starting import..."] data).2.2.1 r.2.1 r.2.2).trans hc

/-- C1: during import, Pass 2 discovers variables by flattening only the first
declared mode of each collection: (i) every variable of the host after
`handleImport` either matches a pre-import variable in id, name, collection
and resolved type, or bears a path flattened from the *first* declared mode of
some collection of the document — so a path appearing only in a later mode is
never created; and (ii) for every collection of a well-formed document with
pairwise-distinct collection names, on a host with fresh, pairwise-distinct
collection ids, every flattened first-mode path with no pre-existing host
variable of that name in the entry's collection gets a variable with that
name, that collection's id, and the resolved type mapped from the record's
type tag (`STRING` if absent). -/
theorem first_mode_discovery_and_creation (data : Doc) (h : Host) :
    (∀ v ∈ (runImport data h).host.vars,
      (∃ w ∈ h.vars, varSig w = varSig v) ∨
      ∃ p ∈ data, ∃ mg, p.2.head? = some mg ∧
        v.name ∈ (flattenVariables mg.2 "" false).1.map Prod.fst) ∧
    (wfDoc data = true →
      ((data.map Prod.fst).Nodup) →
      (∀ c ∈ h.collections, c.id < h.nextId) →
      ((h.collections.map (fun c => c.id)).Nodup) →
      ∀ p ∈ data, ∀ mg, p.2.head? = some mg →
      ∃ cid,
        ((findCollectionByName (runImport data h).host p.1).map (fun c => c.id)) = some cid ∧
        ∀ pr ∈ (flattenVariables mg.2 "" false).1,
          findVariable h pr.1 cid = none →
          ∃ v ∈ (runImport data h).host.vars,
            v.name = pr.1 ∧ v.variableCollectionId = cid ∧
            v.resolvedType = specPass2Type pr.2.dtype) := by
  constructor
  · intro v hv
    simp only [runImport] at hv
    rcases hp2 : pass2 (pass1Go h [] [] [.info "Starting import..."] data).1
        (pass1Go h [] [] [.info "Starting import..."] data).2.1 false
        (pass1Go h [] [] [.info "Starting import..."] data).2.2.2 data with e | r
    · simp only [hp2] at hv
      have hvars := pass1Go_vars data h [] [] [.info "Starting import..."]
      have hprov := pass2_provenance data
        (pass1Go h [] [] [.info "Starting import..."] data).1
        (pass1Go h [] [] [.info "Starting import..."] data).2.1 false
        (pass1Go h [] [] [.info "Starting import..."] data).2.2.2 v
        (by rw [hp2]; exact hv)
      rcases hprov with hin | ⟨p, hp, mg, hmg, hname⟩
      · rw [hvars] at hin
        exact .inl ⟨v, hin, rfl⟩
      · exact .inr ⟨p, hp, mg, hmg, hname⟩
    · simp only [hp2] at hv
      have hsig := pass3_sig data r.1
        (pass1Go h [] [] [.info "Starting import..."] data).2.1
        (pass1Go h [] [] [.info "Starting import..."] data).2.2.1 r.2.1 r.2.2
      have hmem : varSig v ∈ r.1.vars.map varSig := by
        rw [← hsig]
        exact List.mem_map_of_mem varSig hv
      obtain ⟨w, hw, hwsig⟩ := List.mem_map.mp hmem
      have hvars := pass1Go_vars data h [] [] [.info "Starting import..."]
      have hprov := pass2_provenance data
        (pass1Go h [] [] [.info "Starting import..."] data).1
        (pass1Go h [] [] [.info "Starting import..."] data).2.1 false
        (pass1Go h [] [] [.info "Starting import..."] data).2.2.2 w
        (by rw [hp2]; exact hw)
      rcases hprov with hin | ⟨p, hp, mg, hmg, hname⟩
      · rw [hvars] at hin
        exact .inl ⟨w, hin, hwsig⟩
      · have hname2 : w.name = v.name := congrArg (fun s => s.2.1) hwsig
        rw [hname2] at hname
        exact .inr ⟨p, hp, mg, hmg, hname⟩
  · intro hwf hnodup hlt hndid p hp mg hmg
    have hP := pass1_cmap data h [] [] [.info "Starting import..."] hnodup hlt hndid
    obtain ⟨cid, hlookp, hfindp⟩ := hP.2.2.2.2.1 p hp
    refine ⟨cid, ?_, ?_⟩
    · rw [findCol_collections (runImport data h).host
        ((pass1Go h [] [] [.info "Starting import..."] data).1) (runImport_cols data h) p.1]
      exact hfindp
    · intro pr hpr hfresh
      have hvars := pass1Go_vars data h [] [] [.info "Starting import..."]
      have hfresh1 : findVariable (pass1Go h [] [] [.info "Starting import..."] data).1
          pr.1 cid = none := by
        simp only [findVariable] at hfresh ⊢
        rw [hvars]
        exact hfresh
      have huniq : ∀ q ∈ data, q.1 = p.1 → q = p :=
        fun q hq hq1 => List.inj_on_of_nodup_map hnodup hq hp hq1
      have hcross : ∀ q ∈ data, q.1 ≠ p.1 → ∀ cidq,
          lookupStr (pass1Go h [] [] [.info "Starting import..."] data).2.1 q.1 = some cidq →
          cidq ≠ cid := by
        intro q hq hqne cidq hlookq hcontra
        obtain ⟨cidq2, hlookq2, hfindq2⟩ := hP.2.2.2.2.1 q hq
        rw [hlookq] at hlookq2
        have hcq : cidq2 = cid := (Option.some_inj.mp hlookq2).symm.trans hcontra
        obtain ⟨cp, hcp, hcpid⟩ := Option.map_eq_some'.mp hfindp
        obtain ⟨cq, hcq2, hcqid⟩ := Option.map_eq_some'.mp hfindq2
        have hcp' : (pass1Go h [] [] [.info "Starting import..."] data).1.collections.find?
            (fun c => c.name == p.1) = some cp := hcp
        have hcq' : (pass1Go h [] [] [.info "Starting import..."] data).1.collections.find?
            (fun c => c.name == q.1) = some cq := hcq2
        have hcpmem := List.mem_of_find?_eq_some hcp'
        have hcqmem := List.mem_of_find?_eq_some hcq'
        have hcpname := List.find?_some hcp'
        have hcqname := List.find?_some hcq'
        have hideq : cp.id = cq.id := by rw [hcpid, hcqid, hcq]
        have hcpeqcq : cp = cq := List.inj_on_of_nodup_map hP.2.1 hcpmem hcqmem hideq
        have hn1 : cp.name = p.1 := eq_of_beq hcpname
        have hn2 : cq.name = q.1 := eq_of_beq hcqname
        rw [hcpeqcq, hn2] at hn1
        exact hqne hn1
      have hok : ∀ r ∈ (flattenVariables mg.2 "" false).1, okTypeTag r.2.dtype = true := by
        have hwcp : wfCollection p.2 = true := List.all_eq_true.mp hwf p hp
        cases hmodes : p.2 with
        | nil =>
          rw [hmodes] at hmg
          exact absurd hmg (by simp)
        | cons m0 ms =>
          rw [hmodes] at hwcp hmg
          simp only [List.head?_cons, Option.some.injEq] at hmg
          subst hmg
          simp only [wfCollection] at hwcp
          exact fun r hr => List.all_eq_true.mp hwcp r hr
      obtain ⟨h2, lg2, logs2, hp2⟩ := pass2_ok data
        (pass1Go h [] [] [.info "Starting import..."] data).1
        (pass1Go h [] [] [.info "Starting import..."] data).2.1 false
        (pass1Go h [] [] [.info "Starting import..."] data).2.2.2 hwf
      obtain ⟨w, hw, hwname, hwcid, hwtype⟩ := pass2_creates data
        (pass1Go h [] [] [.info "Starting import..."] data).1
        (pass1Go h [] [] [.info "Starting import..."] data).2.1 false
        (pass1Go h [] [] [.info "Starting import..."] data).2.2.2 h2 lg2 logs2 hp2
        p hp cid hlookp huniq hcross mg hmg hok pr hpr hfresh1
      simp only [runImport, hp2]
      have hsig := pass3_sig data h2
        (pass1Go h [] [] [.info "Starting import..."] data).2.1
        (pass1Go h [] [] [.info "Starting import..."] data).2.2.1 lg2 logs2
      have hmem : varSig w ∈
          ((pass3 h2 (pass1Go h [] [] [.info "Starting import..."] data).2.1
            (pass1Go h [] [] [.info "Starting import..."] data).2.2.1 lg2 logs2 data).1).vars.map
            varSig := by
        rw [hsig]
        exact List.mem_map_of_mem varSig hw
      obtain ⟨v, hv, hvsig⟩ := List.mem_map.mp hmem
      refine ⟨v, hv, ?_, ?_, ?_⟩
      · have hn : v.name = w.name := congrArg (fun s => s.2.1) hvsig
        exact hn.trans hwname
      · have hcd : v.variableCollectionId = w.variableCollectionId :=
          congrArg (fun s => s.2.2.1) hvsig
        exact hcd.trans hwcid
      · have htp : v.resolvedType = w.resolvedType :=
          congrArg (fun s => s.2.2.2) hvsig
        exact htp.trans hwtype

/-- C1 witness: on a concrete one-collection, one-mode document imported into
the empty host, the created collection is found and every first-mode path gets
its variable with the mapped resolved type. -/
theorem first_mode_discovery_and_creation_witness :
    ∃ cid,
      ((findCollectionByName (runImport c1Doc emptyHost).host "C").map
        (fun c => c.id)) = some cid ∧
      ∀ pr ∈ (flattenVariables c1Group "" false).1,
        findVariable emptyHost pr.1 cid = none →
        ∃ v ∈ (runImport c1Doc emptyHost).host.vars,
          v.name = pr.1 ∧ v.variableCollectionId = cid ∧
          v.resolvedType = specPass2Type pr.2.dtype :=
  (first_mode_discovery_and_creation c1Doc emptyHost).2 (by decide) (by decide)
    (by decide) (by decide) ("C", [("M", c1Group)]) (by decide) ("M", c1Group) rfl

/-- `find?` over a name-preserving collection map. -/
theorem find?_map_name_pres : ∀ (l : List VCollection) (f : VCollection → VCollection),
    (∀ c, (f c).name = c.name) → ∀ (cn : String),
    ((l.map f).find? (fun c => c.name == cn)) = (l.find? (fun c => c.name == cn)).map f
  | [], _, _, _ => rfl
  | c :: rest, f, hf, cn => by
    cases hp : (c.name == cn) with
    | true => simp [List.find?, hf, hp]
    | false =>
      simp only [List.map_cons, List.find?, hf, hp]
      exact find?_map_name_pres rest f hf cn

/-- The invariants the Pass 1 mode loop maintains about the host: fresh-enough
ids, no `"Mode 1"` mode anywhere, collections found by name persist with their
modes, every collection descends from one of the initial ones, and every
processed mode name was either found in the snapshot or added to every
collection carrying the processed collection id. -/
abbrev mlConcl (h0 : Host) (snapshot : List VarMode) (cid : Nat)
    (names : List String) (H : Host) : Prop :=
  (∀ c ∈ H.collections, c.id < H.nextId) ∧
  (∀ c ∈ H.collections, noMode1 c = true) ∧
  (∀ cn c, findCollectionByName h0 cn = some c →
    ∃ c2, findCollectionByName H cn = some c2 ∧ c.id = c2.id ∧
      ∀ m ∈ c.modes, m ∈ c2.modes) ∧
  (∀ c2 ∈ H.collections, ∃ c1 ∈ h0.collections, c2.id = c1.id ∧
    ∀ m ∈ c1.modes, m ∈ c2.modes) ∧
  (∀ mn ∈ names, (∃ m ∈ snapshot, m.name = mn) ∨
    (∀ c2 ∈ H.collections, c2.id = cid → ∃ m ∈ c2.modes, m.name = mn))

/-- The Pass 1 mode loop, run on a host without `"Mode 1"` modes and with
benign declared names, only ever adds modes: all the `mlConcl` invariants
hold (the rename branch is unreachable because either the snapshot has no
`"Mode 1"` or the loop is past its first iteration). -/
theorem modeLoop_master : ∀ (names : List String) (h : Host) (cid : Nat) (cname : String)
    (snapshot : List VarMode) (i : Nat) (mmap : List (String × Nat)) (logs : List LogEvent),
    (snapshot.find? (fun m => m.name == "Mode 1") = none ∨ 1 ≤ i) →
    (∀ mn ∈ names, ¬(mn = "Mode 1")) →
    (∀ c ∈ h.collections, c.id < h.nextId) →
    (∀ c ∈ h.collections, noMode1 c = true) →
    mlConcl h snapshot cid names ((modeLoop h cid cname snapshot i mmap logs names).1)
  | [], h, cid, cname, snapshot, i, mmap, logs => by
    intro _ _ hids hnm
    exact ⟨hids, hnm, fun cn c hf => ⟨c, hf, rfl, fun m hm => hm⟩,
      fun c2 h2 => ⟨c2, h2, rfl, fun m hm => hm⟩,
      fun mn hmn => absurd hmn (List.not_mem_nil mn)⟩
  | mn :: rest, h, cid, cname, snapshot, i, mmap, logs => by
    intro hnr hnames hids hnm
    have hmn1 : ¬(mn = "Mode 1") := hnames mn (List.mem_cons_self _ _)
    have hnames2 : ∀ x ∈ rest, ¬(x = "Mode 1") :=
      fun x hx => hnames x (List.mem_cons_of_mem _ hx)
    simp only [modeLoop]
    cases hfm : snapshot.find? (fun m => m.name == mn) with
    | some m =>
      have IH := modeLoop_master rest h cid cname snapshot (i + 1)
        (mapSet mmap mn m.modeId) logs
        (hnr.imp (fun x => x) (fun hi => Nat.le_succ_of_le hi)) hnames2 hids hnm
      refine ⟨IH.1, IH.2.1, IH.2.2.1, IH.2.2.2.1, ?_⟩
      intro x hx
      rcases List.mem_cons.mp hx with rfl | hmem
      · have hpm := List.find?_some hfm
        exact .inl ⟨m, List.mem_of_find?_eq_some hfm, eq_of_beq hpm⟩
      · exact IH.2.2.2.2 x hmem
    | none =>
      have hids2 : ∀ c ∈ ((addMode h cid mn).1).collections,
          c.id < ((addMode h cid mn).1).nextId := by
        intro c hc
        simp only [addMode] at hc ⊢
        obtain ⟨c0, hc0, rfl⟩ := List.mem_map.mp hc
        by_cases h0 : c0.id = cid
        · simpa [h0] using Nat.lt_succ_of_lt (hids c0 hc0)
        · simpa [h0] using Nat.lt_succ_of_lt (hids c0 hc0)
      have hnm2 : ∀ c ∈ ((addMode h cid mn).1).collections, noMode1 c = true := by
        intro c hc
        simp only [addMode] at hc
        obtain ⟨c0, hc0, rfl⟩ := List.mem_map.mp hc
        by_cases h0 : c0.id = cid
        · have hnm0 := hnm c0 hc0
          simp only [noMode1] at hnm0 ⊢
          simp [h0, List.all_append, hnm0, hmn1]
        · simpa [h0] using hnm c0 hc0
      have hstep : ∀ (cn : String),
          findCollectionByName ((addMode h cid mn).1) cn
            = (findCollectionByName h cn).map
              (fun c => if c.id == cid then
                { c with modes := c.modes ++ [⟨h.nextId, mn⟩] } else c) := by
        intro cn
        simp only [findCollectionByName, addMode]
        exact find?_map_name_pres h.collections _
          (fun c => by by_cases h0 : c.id = cid <;> simp [h0]) cn
      suffices main : mlConcl h snapshot cid (mn :: rest)
          ((modeLoop (addMode h cid mn).1 cid cname snapshot (i + 1)
            (mapSet mmap mn (addMode h cid mn).2)
            (logs ++ [.info ("Adding mode \"" ++ mn ++ "\" to collection \"" ++ cname ++ "\"")])
            rest).1) by
        cases hfd : snapshot.find? (fun m => m.name == "Mode 1") with
        | some dm =>
          have hi1 : 1 ≤ i := by
            rcases hnr with hL | hi
            · rw [hL] at hfd
              exact absurd hfd (by simp)
            · exact hi
          have hi0 : ¬((i == 0) = true) := by
            cases i with
            | zero => exact absurd hi1 (by simp)
            | succ n => simp
          simp only [hi0, if_false]
          exact main
        | none => exact main
      have IH := modeLoop_master rest (addMode h cid mn).1 cid cname snapshot (i + 1)
        (mapSet mmap mn (addMode h cid mn).2)
        (logs ++ [.info ("Adding mode \"" ++ mn ++ "\" to collection \"" ++ cname ++ "\"")])
        (Or.inr (Nat.succ_le_succ (Nat.zero_le i))) hnames2 hids2 hnm2
      refine ⟨IH.1, IH.2.1, ?_, ?_, ?_⟩
      · intro cn c hf
        have h1f : findCollectionByName ((addMode h cid mn).1) cn
            = some (if c.id == cid then
                { c with modes := c.modes ++ [⟨h.nextId, mn⟩] } else c) := by
          rw [hstep cn, hf]
          rfl
        obtain ⟨c3, hf3, hid3, hsub3⟩ := IH.2.2.1 cn _ h1f
        refine ⟨c3, hf3, ?_, fun m hm => hsub3 m ?_⟩
        · by_cases h0 : c.id = cid
          · simpa [h0] using hid3
          · simpa [h0] using hid3
        · by_cases h0 : c.id = cid
          · simp [h0]
            exact Or.inl hm
          · simpa [h0] using hm
      · intro c2 hc2
        obtain ⟨c1m, hc1m, hidm, hsubm⟩ := IH.2.2.2.1 c2 hc2
        simp only [addMode] at hc1m
        obtain ⟨c0, hc0, rfl⟩ := List.mem_map.mp hc1m
        refine ⟨c0, hc0, ?_, fun m hm => hsubm m ?_⟩
        · by_cases h0 : c0.id = cid
          · simpa [h0] using hidm
          · simpa [h0] using hidm
        · by_cases h0 : c0.id = cid
          · simp [h0]
            exact Or.inl hm
          · simpa [h0] using hm
      · intro x hx
        rcases List.mem_cons.mp hx with rfl | hmem
        · right
          intro c2 hc2 hcid2
          obtain ⟨c1m, hc1m, hidm, hsubm⟩ := IH.2.2.2.1 c2 hc2
          simp only [addMode] at hc1m
          obtain ⟨c0, hc0, rfl⟩ := List.mem_map.mp hc1m
          have hc0id : c0.id = cid := by
            by_cases h0 : c0.id = cid
            · exact h0
            · have hcc : c2.id = c0.id := by simpa [h0] using hidm
              exact absurd (hcc.symm.trans hcid2) h0
          have hmem2 : (⟨h.nextId, x⟩ : VarMode) ∈
              (if (c0.id == cid) = true then
                { c0 with modes := c0.modes ++ [⟨h.nextId, x⟩] } else c0).modes := by
            simp [hc0id]
          exact ⟨⟨h.nextId, x⟩, hsubm _ hmem2, rfl⟩
        · exact IH.2.2.2.2 x hmem

/-- First iteration of the mode loop on a freshly created collection: the
declared name differs from `"Mode 1"`, the snapshot's default mode is found,
and the default mode is renamed. -/
theorem modeLoop_fresh_step (h1 : Host) (cid mid : Nat) (cname mn0 : String)
    (rest : List String) (mmap : List (String × Nat)) (logs : List LogEvent)
    (hd0 : ¬(mn0 = "Mode 1")) :
    modeLoop h1 cid cname [⟨mid, "Mode 1"⟩] 0 mmap logs (mn0 :: rest)
      = modeLoop (renameMode h1 cid mid mn0) cid cname [⟨mid, "Mode 1"⟩] 1
          (mapSet mmap mn0 mid)
          (logs ++ [.info ("Renamed default \"Mode 1\" to \"" ++ mn0 ++ "\" in collection \"" ++ cname ++ "\"")])
          rest := by
  have hbeq : ("Mode 1" == mn0) = false := beq_eq_false_iff_ne.mpr (Ne.symm hd0)
  simp [modeLoop, List.find?, hbeq]

/-- `renameMode` on a host whose last collection is the targeted one (and no
other collection carries the target id) renames only inside that last
collection. -/
theorem renameMode_append (h1 : Host) (l : List VCollection) (col : VCollection)
    (cid mid : Nat) (mn0 : String)
    (hcols : h1.collections = l ++ [col]) (hl : ∀ c ∈ l, ¬(c.id = cid))
    (hcol : col.id = cid) :
    (renameMode h1 cid mid mn0).collections
      = l ++ [{ col with modes := col.modes.map (fun m =>
          if m.modeId == mid then { m with name := mn0 } else m) }] := by
  simp only [renameMode, hcols, List.map_append]
  congr 1
  · have hmapid : l.map (fun c => if c.id == cid then
        { c with modes := c.modes.map (fun m =>
            if m.modeId == mid then { m with name := mn0 } else m) } else c) = l.map id :=
      List.map_congr_left (fun c hc => by simp [hl c hc])
    rw [hmapid, List.map_id]
  · simp [hcol]

/-- The invariants Pass 1 maintains: fresh-enough ids, no `"Mode 1"` mode in
any collection, collections found by name persist with their modes, and every
document entry's collection is found by name and carries all its declared mode
names. -/
abbrev p1Concl (h0 : Host) (data : Doc) (H : Host) : Prop :=
  (∀ c ∈ H.collections, c.id < H.nextId) ∧
  (∀ c ∈ H.collections, noMode1 c = true) ∧
  (∀ cn c, findCollectionByName h0 cn = some c →
    ∃ c2, findCollectionByName H cn = some c2 ∧ c.id = c2.id ∧
      ∀ m ∈ c.modes, m ∈ c2.modes) ∧
  (∀ p ∈ data, ∃ c2, findCollectionByName H p.1 = some c2 ∧
    ∀ mn ∈ p.2.map (fun q => q.1), ∃ m ∈ c2.modes, m.name = mn)

/-- Pass 1 on a document whose collections all declare at least one mode and
never a mode named `"Mode 1"`, starting from a host without `"Mode 1"` modes,
establishes the `p1Concl` invariants. -/
theorem pass1_master : ∀ (data : Doc) (h : Host) (cmap : List (String × Nat))
    (mmaps : List (String × List (String × Nat))) (logs : List LogEvent),
    (∀ p ∈ data, p.2 ≠ []) →
    (∀ p ∈ data, ∀ md ∈ p.2, ¬(md.1 = "Mode 1")) →
    (∀ c ∈ h.collections, c.id < h.nextId) →
    (∀ c ∈ h.collections, noMode1 c = true) →
    p1Concl h data ((pass1Go h cmap mmaps logs data).1)
  | [], h, cmap, mmaps, logs => by
    intro _ _ hids hnm
    exact ⟨hids, hnm, fun cn c hf => ⟨c, hf, rfl, fun m hm => hm⟩,
      fun p hp => absurd hp (List.not_mem_nil p)⟩
  | (cn, modes) :: rest, h, cmap, mmaps, logs => by
    intro hne hm1 hids hnm
    have hmodes : modes ≠ [] := hne (cn, modes) (List.mem_cons_self _ _)
    have hm1h : ∀ md ∈ modes, ¬(md.1 = "Mode 1") := hm1 (cn, modes) (List.mem_cons_self _ _)
    have hnames : ∀ mn ∈ modes.map (fun p => p.1), ¬(mn = "Mode 1") := by
      intro mn hmn
      obtain ⟨md, hmd, rfl⟩ := List.mem_map.mp hmn
      exact hm1h md hmd
    have hner : ∀ p ∈ rest, p.2 ≠ [] := fun p hp => hne p (List.mem_cons_of_mem _ hp)
    have hm1r : ∀ p ∈ rest, ∀ md ∈ p.2, ¬(md.1 = "Mode 1") :=
      fun p hp => hm1 p (List.mem_cons_of_mem _ hp)
    simp only [pass1Go]
    cases hf : findCollectionByName h cn with
    | some c =>
      simp only [hf]
      have hf0 : h.collections.find? (fun c => c.name == cn) = some c := hf
      have hcmem : c ∈ h.collections := List.mem_of_find?_eq_some hf0
      have hnm1c : c.modes.all (fun m => !(m.name == "Mode 1")) = true := hnm c hcmem
      have hsnap : c.modes.find? (fun m => m.name == "Mode 1") = none := by
        rw [List.find?_eq_none]
        intro m hm
        have hb := List.all_eq_true.mp hnm1c m hm
        simp only [Bool.not_eq_true'] at hb
        simp [hb]
      have M := modeLoop_master (modes.map (fun p => p.1)) h c.id cn c.modes 0 [] logs
        (Or.inl hsnap) hnames hids hnm
      generalize hML : modeLoop h c.id cn c.modes 0 [] logs (modes.map (fun p => p.1)) = ML at M ⊢
      have IH := pass1_master rest ML.1 (mapSet cmap cn c.id)
        (mapSet mmaps cn ML.2.1) ML.2.2 hner hm1r M.1 M.2.1
      refine ⟨IH.1, IH.2.1, ?_, ?_⟩
      · intro cn0 c0 hfc
        obtain ⟨c1, hf1, hid1, hsub1⟩ := M.2.2.1 cn0 c0 hfc
        obtain ⟨c2, hf2, hid2, hsub2⟩ := IH.2.2.1 cn0 c1 hf1
        exact ⟨c2, hf2, hid1.trans hid2, fun m hm => hsub2 m (hsub1 m hm)⟩
      · intro p hp
        rcases List.mem_cons.mp hp with rfl | hmem
        · obtain ⟨cmid, hfmid, hidmid, hsubmid⟩ := M.2.2.1 cn c hf
          obtain ⟨cfin, hffin, hidfin, hsubfin⟩ := IH.2.2.1 cn cmid hfmid
          refine ⟨cfin, hffin, ?_⟩
          intro mn hmn
          rcases M.2.2.2.2 mn hmn with ⟨m, hmsnap, hmname⟩ | hall
          · exact ⟨m, hsubfin m (hsubmid m hmsnap), hmname⟩
          · have hfmid0 : (ML.1).collections.find? (fun c => c.name == cn) = some cmid := hfmid
            have hc2mem : cmid ∈ (ML.1).collections := List.mem_of_find?_eq_some hfmid0
            obtain ⟨m, hmmem, hmname⟩ := hall cmid hc2mem hidmid.symm
            exact ⟨m, hsubfin m hmmem, hmname⟩
        · exact IH.2.2.2 p hmem
    | none =>
      simp only [hf]
      cases modes with
      | nil => exact absurd rfl hmodes
      | cons md0 mrest =>
        have hd0 : ¬(md0.1 = "Mode 1") := hm1h md0 (List.mem_cons_self _ _)
        simp only [List.map_cons]
        have h2id : (createVariableCollection h cn).2.id = h.nextId := rfl
        have h2modes : (createVariableCollection h cn).2.modes
            = [⟨h.nextId + 1, "Mode 1"⟩] := rfl
        rw [h2id, h2modes, modeLoop_fresh_step _ _ _ _ _ _ _ _ hd0]
        have hc2cols : (renameMode (createVariableCollection h cn).1 h.nextId
              (h.nextId + 1) md0.1).collections
            = h.collections ++ [⟨h.nextId, cn, [⟨h.nextId + 1, md0.1⟩]⟩] := by
          rw [renameMode_append _ h.collections ⟨h.nextId, cn, [⟨h.nextId + 1, "Mode 1"⟩]⟩
            h.nextId (h.nextId + 1) md0.1 rfl (fun c hc => Nat.ne_of_lt (hids c hc)) rfl]
          simp
        have hc2next : (renameMode (createVariableCollection h cn).1 h.nextId
            (h.nextId + 1) md0.1).nextId = h.nextId + 2 := rfl
        have hids2 : ∀ c ∈ (renameMode (createVariableCollection h cn).1 h.nextId
              (h.nextId + 1) md0.1).collections,
            c.id < (renameMode (createVariableCollection h cn).1 h.nextId
              (h.nextId + 1) md0.1).nextId := by
          intro c hc
          rw [hc2cols] at hc
          rw [hc2next]
          rcases List.mem_append.mp hc with hin | hin
          · have := hids c hin
            omega
          · simp only [List.mem_singleton] at hin
            rw [hin]
            exact Nat.lt_succ_of_lt (Nat.lt_succ_self _)
        have hnm2 : ∀ c ∈ (renameMode (createVariableCollection h cn).1 h.nextId
              (h.nextId + 1) md0.1).collections, noMode1 c = true := by
          intro c hc
          rw [hc2cols] at hc
          rcases List.mem_append.mp hc with hin | hin
          · exact hnm c hin
          · simp only [List.mem_singleton] at hin
            rw [hin]
            simp [noMode1, hd0]
        have M := modeLoop_master (mrest.map (fun p => p.1))
          (renameMode (createVariableCollection h cn).1 h.nextId (h.nextId + 1) md0.1)
          h.nextId cn [⟨h.nextId + 1, "Mode 1"⟩] 1
          (mapSet [] md0.1 (h.nextId + 1))
          ((logs ++ [.info ("Creating collection: " ++ cn)]) ++ [.info ("Renamed default \"Mode 1\" to \"" ++ md0.1 ++ "\" in collection \"" ++ cn ++ "\"")])
          (Or.inr (le_refl 1))
          (fun x hx => hnames x (List.mem_cons_of_mem _ hx)) hids2 hnm2
        generalize hML : modeLoop
          (renameMode (createVariableCollection h cn).1 h.nextId (h.nextId + 1) md0.1)
          h.nextId cn [⟨h.nextId + 1, "Mode 1"⟩] 1
          (mapSet [] md0.1 (h.nextId + 1))
          ((logs ++ [.info ("Creating collection: " ++ cn)]) ++ [.info ("Renamed default \"Mode 1\" to \"" ++ md0.1 ++ "\" in collection \"" ++ cn ++ "\"")])
          (mrest.map (fun p => p.1)) = ML at M ⊢
        have IH := pass1_master rest ML.1 (mapSet cmap cn h.nextId)
          (mapSet mmaps cn ML.2.1) ML.2.2 hner hm1r M.1 M.2.1
        refine ⟨IH.1, IH.2.1, ?_, ?_⟩
        · intro cn0 c0 hfc
          have hfc0 : h.collections.find? (fun c => c.name == cn0) = some c0 := hfc
          have hfc2 : findCollectionByName (renameMode (createVariableCollection h cn).1
              h.nextId (h.nextId + 1) md0.1) cn0 = some c0 := by
            simp only [findCollectionByName, hc2cols]
            rw [List.find?_append, hfc0]
            rfl
          obtain ⟨c1, hf1, hid1, hsub1⟩ := M.2.2.1 cn0 c0 hfc2
          obtain ⟨c2, hf2, hid2, hsub2⟩ := IH.2.2.1 cn0 c1 hf1
          exact ⟨c2, hf2, hid1.trans hid2, fun m hm => hsub2 m (hsub1 m hm)⟩
        · intro p hp
          rcases List.mem_cons.mp hp with rfl | hmem
          · have hfnew : findCollectionByName (renameMode (createVariableCollection h cn).1
                h.nextId (h.nextId + 1) md0.1) cn
                = some ⟨h.nextId, cn, [⟨h.nextId + 1, md0.1⟩]⟩ := by
              have hfn0 : h.collections.find? (fun c => c.name == cn) = none := hf
              simp only [findCollectionByName, hc2cols]
              rw [List.find?_append, hfn0]
              simp [List.find?]
            obtain ⟨cmid, hfmid, hidmid, hsubmid⟩ := M.2.2.1 cn _ hfnew
            obtain ⟨cfin, hffin, hidfin, hsubfin⟩ := IH.2.2.1 cn cmid hfmid
            refine ⟨cfin, hffin, ?_⟩
            intro mn hmn
            simp only [List.map_cons] at hmn
            rcases List.mem_cons.mp hmn with rfl | hmn2
            · refine ⟨⟨h.nextId + 1, md0.1⟩, ?_, rfl⟩
              exact hsubfin _ (hsubmid _ (by simp))
            · rcases M.2.2.2.2 mn hmn2 with ⟨m, hmsnap, hmname⟩ | hall
              · simp only [List.mem_singleton] at hmsnap
                rw [hmsnap] at hmname
                exact absurd hmname.symm (hnames mn (by simp [hmn2]))
              · have hfmid0 : (ML.1).collections.find? (fun c => c.name == cn) = some cmid := hfmid
                have hc2mem : cmid ∈ (ML.1).collections := List.mem_of_find?_eq_some hfmid0
                obtain ⟨m, hmmem, hmname⟩ := hall cmid hc2mem hidmid.symm
                exact ⟨m, hsubfin m hmmem, hmname⟩
          · exact IH.2.2.2 p hmem

/-- The mode loop is a no-op on the host when every declared name is found in
the snapshot. -/
theorem modeLoop_noop : ∀ (names : List String) (h : Host) (cid : Nat) (cname : String)
    (snapshot : List VarMode) (i : Nat) (mmap : List (String × Nat)) (logs : List LogEvent),
    (∀ mn ∈ names, (snapshot.find? (fun m => m.name == mn)).isSome = true) →
    ((modeLoop h cid cname snapshot i mmap logs names).1) = h
  | [], _, _, _, _, _, _, _ => fun _ => rfl
  | mn :: rest, h, cid, cname, snapshot, i, mmap, logs => by
    intro hall
    have h1 := hall mn (List.mem_cons_self _ _)
    simp only [modeLoop]
    cases hfm : snapshot.find? (fun m => m.name == mn) with
    | some m =>
      exact modeLoop_noop rest h cid cname snapshot (i + 1) (mapSet mmap mn m.modeId) logs
        (fun x hx => hall x (List.mem_cons_of_mem _ hx))
    | none =>
      rw [hfm] at h1
      exact absurd h1 (by simp)

/-- Pass 1 is a no-op on the host when every collection is found by name and
already carries all its declared mode names. -/
theorem pass1_noop : ∀ (data : Doc) (h : Host) (cmap : List (String × Nat))
    (mmaps : List (String × List (String × Nat))) (logs : List LogEvent),
    (∀ p ∈ data, ∃ c, findCollectionByName h p.1 = some c ∧
      ∀ mn ∈ p.2.map (fun q => q.1),
        (c.modes.find? (fun m => m.name == mn)).isSome = true) →
    ((pass1Go h cmap mmaps logs data).1) = h
  | [], _, _, _, _ => fun _ => rfl
  | (cn, modes) :: rest, h, cmap, mmaps, logs => by
    intro hall
    obtain ⟨c, hfc, hmodes⟩ := hall (cn, modes) (List.mem_cons_self _ _)
    simp only [pass1Go]
    simp only [hfc]
    rw [modeLoop_noop (modes.map (fun p => p.1)) h c.id cn c.modes 0 [] logs hmodes]
    exact pass1_noop rest h _ _ _ (fun p hp => hall p (List.mem_cons_of_mem _ hp))


/-- The C6 counterexample document: its only declared mode is itself named
`"Mode 1"`, so the default mode is matched instead of renamed. -/
def c6Doc : Doc := [("C", [("Mode 1", JFields.nil)])]

/-- C6 counterexample: importing `c6Doc` twice in succession into the empty
host leaves a mode literally named `"Mode 1"` in the created collection. -/
theorem mode1_survives_double_import :
    ((runImport c6Doc (runImport c6Doc emptyHost).host).host.collections.all
      noMode1) = false := by
  decide

/-- C6 (amended): for a document in which every collection declares at least
one mode and no declared mode is named `"Mode 1"`, importing it twice in
succession into an empty host (i) leaves no mode literally named `"Mode 1"` in
any created collection — the default `"Mode 1"` is renamed to the first
declared name rather than kept — and (ii) the second import changes no
collection: ids, names and mode lists are exactly as the first import left
them (no new collections and no new modes). -/
theorem mode1_rename_and_reimport_noop (data : Doc)
    (hne : ∀ p ∈ data, p.2 ≠ [])
    (hm1 : ∀ p ∈ data, ∀ md ∈ p.2, ¬(md.1 = "Mode 1")) :
    (∀ c ∈ (runImport data emptyHost).host.collections, noMode1 c = true) ∧
    (runImport data (runImport data emptyHost).host).host.collections
      = (runImport data emptyHost).host.collections := by
  have hP := pass1_master data emptyHost [] [] [.info "Starting import..."] hne hm1
    (fun c hc => absurd hc (List.not_mem_nil c))
    (fun c hc => absurd hc (List.not_mem_nil c))
  have hc1 := runImport_cols data emptyHost
  constructor
  · intro c hc
    rw [hc1] at hc
    exact hP.2.1 c hc
  · have hc2 := runImport_cols data (runImport data emptyHost).host
    rw [hc2]
    have hnoop : ((pass1Go (runImport data emptyHost).host [] []
        [.info "Starting import..."] data).1) = (runImport data emptyHost).host := by
      apply pass1_noop
      intro p hp
      obtain ⟨c2, hfc2, hmn⟩ := hP.2.2.2 p hp
      refine ⟨c2, ?_, ?_⟩
      · rw [findCol_collections (runImport data emptyHost).host
          ((pass1Go emptyHost [] [] [.info "Starting import..."] data).1) hc1 p.1]
        exact hfc2
      · intro mn hmn2
        obtain ⟨m, hmm, hmname⟩ := hmn mn hmn2
        cases hfind : c2.modes.find? (fun m2 => m2.name == mn) with
        | some _ => rfl
        | none =>
          rw [List.find?_eq_none] at hfind
          exact absurd (show (m.name == mn) = true by simp [hmname]) (hfind m hmm)
    rw [hnoop]

/-- C6 witness: a concrete one-collection, one-mode document (mode named
`"M"`) imported twice into the empty host: no `"Mode 1"` mode survives and the
second import leaves the collections untouched. -/
theorem mode1_rename_and_reimport_noop_witness :
    (∀ c ∈ (runImport c1Doc emptyHost).host.collections, noMode1 c = true) ∧
    (runImport c1Doc (runImport c1Doc emptyHost).host).host.collections
      = (runImport c1Doc emptyHost).host.collections :=
  mode1_rename_and_reimport_noop c1Doc (by decide) (by decide)

end Isotope
